import Mathlib

/-!
Verification development for the FSI SBE FIFO character driver
(`drivers/fsi/fsi-sbefifo.c`).

The driver multiplexes a word-oriented hardware FIFO over many logical
clients.  Each client owns two 32-word ring buffers; a global FIFO queue of
transfers is drained by a single timer-driven poll routine
(`sbefifo_poll_timer`) that moves words between the rings and the device
registers, raises and acknowledges the end-of-transfer (EOT) sentinel, and
latches any register-access failure as a permanent device error.

This file shallowly embeds the driver's data structures and operations:
machine words are `Nat` (the driver passes FIFO data through unchanged, so
no modular arithmetic is needed), pointers into the ring backing store are
word indices, C `size_t` arithmetic on in-bounds values is `Nat`
arithmetic, and the register backend (an external collaborator of this
driver) is a parameter supplied per scenario.
-/

namespace Sbefifo

/-- SBEFIFO_BUF_CNT: ring capacity in words. -/
def SBEFIFO_BUF_CNT : Nat := 32

/-- SBEFIFO_EOT_MAGIC: sentinel raised/acknowledged for end of transfer. -/
def SBEFIFO_EOT_MAGIC : Nat := 0xffffffff

/-- `struct sbefifo_buf`: a 32-word ring.  `buf` is the backing store
indexed by word, `full` models the SBEFIFO_BUF_FULL flag bit, and
`rpos`/`wpos` are the word-index counterparts of the C read/write
pointers (`pointer - buf`). -/
structure SbefifoBuf where
  buf : Nat → Nat
  full : Bool
  rpos : Nat
  wpos : Nat

/-- `sbefifo_buf_init`: flags cleared, both cursors at the start. -/
def sbefifo_buf_init : SbefifoBuf :=
  { buf := fun _ => 0, full := false, rpos := 0, wpos := 0 }

/-- `sbefifo_buf_nbreadable`: bytes readable from the ring (contiguous
from `rpos`; the whole capacity when the full flag is set). -/
def sbefifo_buf_nbreadable (b : SbefifoBuf) : Nat :=
  (if b.full then SBEFIFO_BUF_CNT
    else if b.rpos ≤ b.wpos then b.wpos - b.rpos
    else SBEFIFO_BUF_CNT - b.rpos) <<< 2

/-- `sbefifo_buf_nbwriteable`: bytes writable into the ring (contiguous
from `wpos`; zero when the full flag is set). -/
def sbefifo_buf_nbwriteable (b : SbefifoBuf) : Nat :=
  (if b.full then 0
    else if b.wpos < b.rpos then b.rpos - b.wpos
    else SBEFIFO_BUF_CNT - b.wpos) <<< 2

/-- `sbefifo_buf_readnb`: advance the read cursor by `n` bytes, clearing
the full flag when `n ≠ 0`, wrapping exactly at the end of the store.
Returns the updated ring and the C function's boolean result
(`rpos == wpos`, documented as "buffer is now empty"). -/
def sbefifo_buf_readnb (b : SbefifoBuf) (n : Nat) : SbefifoBuf × Bool :=
  let full := if n ≠ 0 then false else b.full
  let rpos := b.rpos + (n >>> 2)
  let rpos := if rpos = SBEFIFO_BUF_CNT then 0 else rpos
  ({ b with full := full, rpos := rpos }, rpos = b.wpos)

/-- `sbefifo_buf_wrotenb`: advance the write cursor by `n` bytes, wrapping
exactly at the end of the store and setting the full flag when the write
cursor lands on the read cursor.  Returns the updated ring and the C
function's boolean result (`rpos == wpos`, documented as "buffer is now
full"). -/
def sbefifo_buf_wrotenb (b : SbefifoBuf) (n : Nat) : SbefifoBuf × Bool :=
  let wpos := b.wpos + (n >>> 2)
  let wpos := if wpos = SBEFIFO_BUF_CNT then 0 else wpos
  let full := if wpos = b.rpos then true else b.full
  ({ b with wpos := wpos, full := full }, b.rpos = wpos)

/-- States reachable from the freshly initialised ring by interleaved
commits, each commit a whole number of words bounded by the ring's own
report, and each read additionally staying inside the backing array (a
read of a full ring that would run past the end of the array is an
out-of-bounds access in the C code; all in-tree callers consume
contiguously from `rpos`, so they obey this bound). -/
inductive BufReach : SbefifoBuf → Prop where
  | init : BufReach sbefifo_buf_init
  | wr {b : SbefifoBuf} {n : Nat} : BufReach b → 4 ∣ n →
      n ≤ sbefifo_buf_nbwriteable b → BufReach (sbefifo_buf_wrotenb b n).1
  | rd {b : SbefifoBuf} {n : Nat} : BufReach b → 4 ∣ n →
      n ≤ sbefifo_buf_nbreadable b → b.rpos + (n >>> 2) ≤ SBEFIFO_BUF_CNT →
      BufReach (sbefifo_buf_readnb b n).1

/-- Structural invariant of reachable rings: both cursors are in range and
the full flag implies coincident cursors. -/
def BufInv (b : SbefifoBuf) : Prop :=
  b.rpos < 32 ∧ b.wpos < 32 ∧ (b.full = true → b.rpos = b.wpos)


/-! ## Device, transfers, clients and the poll routine

The remaining claims involve `sbefifo_poll_timer`, the transfer queue and
the client read/write paths.  Transfers live in a heap `xfrs : Nat →
SbefifoXfr` addressed by identifier (heap pointers in C); the device queue
`xfrq` and each client's own list hold identifiers, mirroring the two
intrusive `list_head`s.  The register backend — an external collaborator,
out of scope for this driver — is a parameter: each operation either
returns a value and a new backend state or fails with a negative errno,
which the driver treats as fatal. -/

/-- Errno values used by the driver (as negative return codes). -/
def EAGAIN : Int := 11

def EINVAL : Int := 22

def ETIME : Int := 62

def EPROTO : Int := 71

/-- `SBEFIFO_MAX_RESCHDULE` (msecs_to_jiffies(5000)); time is modelled in
abstract jiffies supplied to the poll routine as `now`. -/
def SBEFIFO_MAX_RESCHDULE : Nat := 5000

/-- Low byte of the down-status word flags end-of-transfer. -/
def EOT_MASK : Nat := 0x000000ff

/-- `sbefifo_dev_nwreadable`: FIFO entry count field of a status word. -/
def sbefifo_dev_nwreadable (sts : Nat) : Nat :=
  (sts &&& 0x000f0000) >>> 16

/-- `sbefifo_dev_nwwriteable`: free slots out of the depth-8 device FIFO. -/
def sbefifo_dev_nwwriteable (sts : Nat) : Nat :=
  8 - sbefifo_dev_nwreadable sts

/-- `struct sbefifo_xfr` (sans list pointers): owner client, the four flag
bits and the data-wait deadline (0 = not armed). -/
structure SbefifoXfr where
  owner : Nat
  writeDone : Bool
  respPending : Bool
  complete : Bool
  cancel : Bool
  wait_data_timeout : Nat

/-- A freshly allocated (kzalloc) transfer for `owner`. -/
def sbefifo_xfr_new (owner : Nat) : SbefifoXfr :=
  { owner := owner, writeDone := false, respPending := false,
    complete := false, cancel := false, wait_data_timeout := 0 }

/-- `struct sbefifo_client`: the two rings, the client's own transfer
list (oldest first) and the O_NONBLOCK bit of `f_flags`. -/
structure SbefifoClient where
  rbuf : SbefifoBuf
  wbuf : SbefifoBuf
  xfrs : List Nat
  nonblock : Bool

/-- A freshly opened client. -/
def sbefifo_client_new (nonblock : Bool) : SbefifoClient :=
  { rbuf := sbefifo_buf_init, wbuf := sbefifo_buf_init, xfrs := [],
    nonblock := nonblock }

/-- `struct sbefifo`: fatal-error latch `rc`, global transfer queue,
transfer heap, client store, poll-timer armed state and an allocation
counter for fresh transfer identifiers. -/
structure SbefifoDev where
  rc : Int
  xfrq : List Nat
  xfrs : Nat → SbefifoXfr
  clients : Nat → SbefifoClient
  timerArmed : Bool
  nextId : Nat

/-- Register backend contract (external collaborator, spec section 6):
word reads/writes at the offsets the driver uses; any error is a negative
errno and is treated by the driver as fatal. -/
structure FsiBackend (σ : Type) where
  inw_up_sts : σ → Except Int (Nat × σ)
  writew : σ → Nat → Except Int σ
  outw_eot_raise : σ → Nat → Except Int σ
  inw_down_sts : σ → Except Int (Nat × σ)
  readw : σ → Except Int (Nat × σ)
  outw_eot_ack : σ → Nat → Except Int σ

/-- `sbefifo_ack_eot`: discard the EOT word from the down FIFO, then write
the magic value to the EOT-ack register. -/
def sbefifo_ack_eot {σ : Type} (B : FsiBackend σ) (s : σ) : Except Int σ :=
  match B.readw s with
  | .error e => .error e
  | .ok (_, s) => B.outw_eot_ack s SBEFIFO_EOT_MAGIC

/-- `sbefifo_next_xfr`: discard cancelled transfers from the front of the
queue; return the first live transfer (if any) and the pruned queue. -/
def sbefifo_next_xfr (xs : Nat → SbefifoXfr) : List Nat → Option Nat × List Nat
  | [] => (none, [])
  | i :: rest =>
    if (xs i).cancel then sbefifo_next_xfr xs rest
    else (some i, i :: rest)

/-- `sbefifo_enq_xfr`: fail with the latched `rc` when set, otherwise
allocate a transfer and append it to the device queue and to the owner
client's list.  Returns the transfer id. -/
def sbefifo_enq_xfr (d : SbefifoDev) (cid : Nat) :
    Except Int (SbefifoDev × Nat) :=
  if d.rc ≠ 0 then .error d.rc
  else
    let xid := d.nextId
    let cl := d.clients cid
    .ok ({ d with
            xfrs := Function.update d.xfrs xid (sbefifo_xfr_new cid),
            xfrq := d.xfrq ++ [xid],
            clients := Function.update d.clients cid
              ({ cl with xfrs := cl.xfrs ++ [xid] }),
            nextId := xid + 1 }, xid)

/-- `sbefifo_xfr_rsp_pending`: the client's oldest transfer exists and has
its response-pending bit set. -/
def sbefifo_xfr_rsp_pending (d : SbefifoDev) (cid : Nat) : Bool :=
  match (d.clients cid).xfrs with
  | [] => false
  | i :: _ => (d.xfrs i).respPending

/-- The per-word inner loop of the write-drain phase: move `k` words from
the ring to the device FIFO; on a register error return the state at the
failure point. -/
def sbefifo_drain_words {σ : Type} (B : FsiBackend σ) :
    Nat → SbefifoBuf → σ → Except (Int × SbefifoBuf × σ) (SbefifoBuf × σ)
  | 0, wbuf, s => .ok (wbuf, s)
  | k + 1, wbuf, s =>
    match B.writew s (wbuf.buf wbuf.rpos) with
    | .error e => .error (e, wbuf, s)
    | .ok s => sbefifo_drain_words B k (sbefifo_buf_readnb wbuf (1 <<< 2)).1 s

/-- Result of the write-drain phase of a poll tick. -/
inductive DrainOut (σ : Type) where
  | drained (wbuf : SbefifoBuf) (s : σ) (stsReads : Nat)
  | backpressure (wbuf : SbefifoBuf) (s : σ) (stsReads : Nat)
  | failed (wbuf : SbefifoBuf) (s : σ) (stsReads : Nat) (e : Int)
  | nofuel

/-- The `/* Drain the write buffer. */` loop of `sbefifo_poll_timer`:
while the ring has readable bytes, read the up status; zero free slots is
backpressure (reschedule), otherwise move `min(free, ring words)` words.
`stsReads` counts status-register polls. -/
def sbefifo_drain_loop {σ : Type} (B : FsiBackend σ) :
    Nat → SbefifoBuf → σ → Nat → DrainOut σ
  | 0, _, _, _ => .nofuel
  | fuel + 1, wbuf, s, reads =>
    let bufn := sbefifo_buf_nbreadable wbuf
    if bufn = 0 then .drained wbuf s reads
    else
      match B.inw_up_sts s with
      | .error e => .failed wbuf s (reads + 1) e
      | .ok (sts, s) =>
        let devn := sbefifo_dev_nwwriteable sts
        if devn = 0 then .backpressure wbuf s (reads + 1)
        else
          let devn := min devn (bufn >>> 2)
          match sbefifo_drain_words B devn wbuf s with
          | .error (e, wbuf, s) => .failed wbuf s (reads + 1) e
          | .ok (wbuf, s) => sbefifo_drain_loop B fuel wbuf s (reads + 1)

/-- The per-word inner loop of the read-fill phase: read `k` words from
the device into the ring.  The word is stored at `wpos`; the cursor is
advanced only for a live transfer (a cancelled transfer's drain buffer is
deliberately not advanced). -/
def sbefifo_fill_words {σ : Type} (B : FsiBackend σ) (cancel : Bool) :
    Nat → SbefifoBuf → σ → Except (Int × SbefifoBuf × σ) (SbefifoBuf × σ)
  | 0, rbuf, s => .ok (rbuf, s)
  | k + 1, rbuf, s =>
    match B.readw s with
    | .error e => .error (e, rbuf, s)
    | .ok (w, s) =>
      let rbuf := { rbuf with buf := Function.update rbuf.buf rbuf.wpos w }
      let rbuf := if cancel then rbuf else (sbefifo_buf_wrotenb rbuf (1 <<< 2)).1
      sbefifo_fill_words B cancel k rbuf s

/-- Result of the read-fill phase of a poll tick.  `wdt` is the updated
data-wait deadline of the transfer. -/
inductive FillOut (σ : Type) where
  | spaceFull (rbuf : SbefifoBuf) (s : σ) (wdt : Nat)
  | nodata (rbuf : SbefifoBuf) (s : σ) (wdt : Nat)
  | timedout (rbuf : SbefifoBuf) (s : σ)
  | completed (rbuf : SbefifoBuf) (s : σ) (wdt : Nat)
  | failed (rbuf : SbefifoBuf) (s : σ) (wdt : Nat) (e : Int)
  | nofuel

/-- The `/* Fill the read buffer. */` loop of `sbefifo_poll_timer`: while
the ring has space, read the down status; no readable data arms or checks
the data-wait deadline (reschedule or `-ETIME`); otherwise move
`min(readable, ring words)` words — one fewer when the status flags EOT —
and on EOT acknowledge the marker and complete. -/
def sbefifo_fill_loop {σ : Type} (B : FsiBackend σ) (now : Nat)
    (cancel : Bool) : Nat → SbefifoBuf → σ → Nat → FillOut σ
  | 0, _, _, _ => .nofuel
  | fuel + 1, rbuf, s, wdt =>
    let bufn := sbefifo_buf_nbwriteable rbuf
    if bufn = 0 then .spaceFull rbuf s wdt
    else
      match B.inw_down_sts s with
      | .error e => .failed rbuf s wdt e
      | .ok (sts, s) =>
        let devn := sbefifo_dev_nwreadable sts
        if devn = 0 then
          if wdt = 0 then .nodata rbuf s (now + SBEFIFO_MAX_RESCHDULE)
          else if now > wdt then .timedout rbuf s
          else .nodata rbuf s wdt
        else
          let wdt := 0
          let devn := min devn (bufn >>> 2)
          let eot : Bool := sts &&& EOT_MASK != 0
          let devn := if eot then devn - 1 else devn
          match sbefifo_fill_words B cancel devn rbuf s with
          | .error (e, rbuf, s) => .failed rbuf s wdt e
          | .ok (rbuf, s) =>
            if eot then
              match sbefifo_ack_eot B s with
              | .error e => .failed rbuf s wdt e
              | .ok s => .completed rbuf s wdt
            else sbefifo_fill_loop B now cancel fuel rbuf s wdt

/-- Observable record of one poll tick (instrumentation only; carries no
behaviour).  `serviced` is the transfer the tick operated on, `ret` the
C function's local `ret`, `eot` its local `eot`, `raises` the number of
writes to the EOT-raise register, `upStsReads` the number of up-status
polls in the drain phase, `woke` whether `wake_up_interruptible` ran. -/
structure TickLog where
  serviced : Option Nat
  ret : Int
  eot : Bool
  raises : Nat
  upStsReads : Nat
  woke : Bool
  fuelOut : Bool

def TickLog.quiet : TickLog :=
  { serviced := none, ret := 0, eot := false, raises := 0, upStsReads := 0,
    woke := false, fuelOut := false }

/-- The `out:` epilogue of `sbefifo_poll_timer`: a nonzero `ret` latches
the fatal code and empties the whole queue; otherwise, after a completed
transfer (`eot`), prune cancelled transfers and re-arm the timer if
another transfer is waiting. -/
def sbefifo_poll_out (d : SbefifoDev) (ret : Int) (eot : Bool) :
    SbefifoDev :=
  if ret ≠ 0 then { d with rc := ret, xfrq := [] }
  else if eot then
    match sbefifo_next_xfr d.xfrs d.xfrq with
    | (some _, q) => { d with xfrq := q, timerArmed := true }
    | (none, q) => { d with xfrq := q }
  else d

/-- Write the (possibly updated) rings back into the owning client unless
the tick was operating on the throwaway drain buffer of a cancelled
transfer (the C code mutates the client's rings in place through
pointers; under cancel the pointers were redirected to the stack `drain`
buffer). -/
def sbefifo_writeback (d : SbefifoDev) (cancel : Bool) (owner : Nat)
    (rbuf wbuf : SbefifoBuf) : SbefifoDev :=
  if cancel then d
  else
    { d with
      clients := Function.update d.clients owner
        ({ d.clients owner with rbuf := rbuf, wbuf := wbuf }) }

/-- Cancel overlay of the poll routine: a cancelled transfer whose
response is not yet pending is forced write-done (nothing more to
write). -/
def sbefifo_cancel_overlay (x : SbefifoXfr) : SbefifoXfr :=
  if x.cancel ∧ ¬x.respPending then { x with writeDone := true } else x

/-- `test_and_clear_bit(SBEFIFO_XFR_WRITE_DONE)`, clear part. -/
def sbefifo_xfr_clear_wd (x : SbefifoXfr) : SbefifoXfr :=
  { x with writeDone := false }

/-- `set_bit(SBEFIFO_XFR_RESP_PENDING)`. -/
def sbefifo_xfr_set_rp (x : SbefifoXfr) : SbefifoXfr :=
  { x with respPending := true }

/-- Store the updated data-wait deadline. -/
def sbefifo_xfr_wdt (x : SbefifoXfr) (wdt : Nat) : SbefifoXfr :=
  { x with wait_data_timeout := wdt }

/-- `set_bit(SBEFIFO_XFR_COMPLETE)` together with the final deadline. -/
def sbefifo_xfr_done (x : SbefifoXfr) (wdt : Nat) : SbefifoXfr :=
  { x with wait_data_timeout := wdt, complete := true }

/-- `sbefifo_poll_timer`: one invocation of the timer callback.  Takes the
head of the queue; under cancel redirects the rings to a scratch buffer
and forces write-done unless a response is already pending; drains the
write ring (backpressure reschedules); raises EOT once the writer is
done, marking response-pending; fills the read ring until out of space,
out of data (reschedule or data-wait timeout) or EOT (acknowledge,
complete, unqueue); finally the `out:` epilogue latches fatal errors. -/
def sbefifo_poll_timer {σ : Type} (B : FsiBackend σ) (fuel now : Nat)
    (d : SbefifoDev) (s : σ) : SbefifoDev × σ × TickLog :=
  let d := { d with timerArmed := false }
  match d.xfrq with
  | [] => (d, s, TickLog.quiet)
  | xid :: rest =>
    -- cancel overlay: redirect buffers, force write-done pre-response
    let x := sbefifo_cancel_overlay (d.xfrs xid)
    let d := { d with xfrs := Function.update d.xfrs xid x }
    let cl := d.clients x.owner
    let rbuf := if x.cancel then sbefifo_buf_init else cl.rbuf
    let wbuf := if x.cancel then sbefifo_buf_init else cl.wbuf
    match sbefifo_drain_loop B fuel wbuf s 0 with
    | .nofuel =>
      (d, s,
        { TickLog.quiet with serviced := some xid, fuelOut := true })
    | .backpressure wbuf s reads =>
      -- no open slot: reschedule, out_unlock (no wake)
      let d := sbefifo_writeback d x.cancel x.owner rbuf wbuf
      ({ d with timerArmed := true }, s,
        { serviced := some xid, ret := 0, eot := false, raises := 0,
          upStsReads := reads, woke := false, fuelOut := false })
    | .failed wbuf s reads e =>
      let d := sbefifo_writeback d x.cancel x.owner rbuf wbuf
      (sbefifo_poll_out d e false, s,
        { serviced := some xid, ret := e, eot := false, raises := 0,
          upStsReads := reads, woke := true, fuelOut := false })
    | .drained wbuf s reads =>
      -- send EOT if the writer is finished
      let raise := x.writeDone
      let x := if raise then sbefifo_xfr_clear_wd x else x
      let d := { d with xfrs := Function.update d.xfrs xid x }
      match (if raise then B.outw_eot_raise s SBEFIFO_EOT_MAGIC
             else .ok s) with
      | .error e =>
        let d := sbefifo_writeback d x.cancel x.owner rbuf wbuf
        (sbefifo_poll_out d e false, s,
          { serviced := some xid, ret := e, eot := false, raises := 1,
            upStsReads := reads, woke := true, fuelOut := false })
      | .ok s =>
        let x := if raise then sbefifo_xfr_set_rp x else x
        let d := { d with xfrs := Function.update d.xfrs xid x }
        if ¬x.respPending then
          -- nothing left to do while the writer is not finished
          let d := sbefifo_writeback d x.cancel x.owner rbuf wbuf
          (sbefifo_poll_out d 0 false, s,
            { serviced := some xid, ret := 0, eot := false,
              raises := if raise then 1 else 0, upStsReads := reads,
              woke := true, fuelOut := false })
        else
          match sbefifo_fill_loop B now x.cancel fuel rbuf s
              x.wait_data_timeout with
          | .nofuel =>
            (d, s,
              { TickLog.quiet with
                serviced := some xid, fuelOut := true,
                raises := if raise then 1 else 0, upStsReads := reads })
          | .nodata rbuf s wdt =>
            -- no data yet: update deadline, reschedule, out_unlock
            let d :=
              { d with
                xfrs := Function.update d.xfrs xid (sbefifo_xfr_wdt x wdt) }
            let d := sbefifo_writeback d x.cancel x.owner rbuf wbuf
            ({ d with timerArmed := true }, s,
              { serviced := some xid, ret := 0, eot := false,
                raises := if raise then 1 else 0, upStsReads := reads,
                woke := false, fuelOut := false })
          | .timedout rbuf s =>
            let d := sbefifo_writeback d x.cancel x.owner rbuf wbuf
            (sbefifo_poll_out d (-ETIME) false, s,
              { serviced := some xid, ret := -ETIME, eot := false,
                raises := if raise then 1 else 0, upStsReads := reads,
                woke := true, fuelOut := false })
          | .failed rbuf s wdt e =>
            let d :=
              { d with
                xfrs := Function.update d.xfrs xid (sbefifo_xfr_wdt x wdt) }
            let d := sbefifo_writeback d x.cancel x.owner rbuf wbuf
            (sbefifo_poll_out d e false, s,
              { serviced := some xid, ret := e, eot := false,
                raises := if raise then 1 else 0, upStsReads := reads,
                woke := true, fuelOut := false })
          | .spaceFull rbuf s wdt =>
            let d :=
              { d with
                xfrs := Function.update d.xfrs xid (sbefifo_xfr_wdt x wdt) }
            let d := sbefifo_writeback d x.cancel x.owner rbuf wbuf
            (sbefifo_poll_out d 0 false, s,
              { serviced := some xid, ret := 0, eot := false,
                raises := if raise then 1 else 0, upStsReads := reads,
                woke := true, fuelOut := false })
          | .completed rbuf s wdt =>
            let d :=
              { d with
                xfrs := Function.update d.xfrs xid (sbefifo_xfr_done x wdt) }
            let d := { d with xfrq := rest }
            let d := sbefifo_writeback d x.cancel x.owner rbuf wbuf
            (sbefifo_poll_out d 0 true, s,
              { serviced := some xid, ret := 0, eot := true,
                raises := if raise then 1 else 0, upStsReads := reads,
                woke := true, fuelOut := false })

/-! ## Client-facing operations

`sbefifo_read_common` / `sbefifo_write_common` with their blocking waits.
A sleeping caller is woken by poller progress, so the blocking
`wait_event_interruptible` is modelled by running the poll routine while
the timer is armed until the wait condition holds; a wait whose condition
is false with no armed timer (or out of fuel) yields `none` ("sleeps
forever" / undetermined).  The signal-delivery (`-ERESTARTSYS`) and
user-memory-fault (`-EFAULT`) paths are not modelled: the scenarios in
the claims have no signals and valid buffers. -/

/-- memcpy of a word list into a backing store at position `p`. -/
def store_words (f : Nat → Nat) (p : Nat) : List Nat → Nat → Nat
  | [] => f
  | w :: ws => store_words (Function.update f p w) (p + 1) ws

/-- memcpy of `k` words out of a backing store from position `p`. -/
def read_words (f : Nat → Nat) (p k : Nat) : List Nat :=
  (List.range k).map (fun i => f (p + i))

/-- `sbefifo_write_ready`: the device failed, or this transfer is the
client's oldest and the write ring has room. -/
def sbefifo_write_ready (d : SbefifoDev) (cid xid : Nat) : Bool :=
  d.rc != 0 ||
    ((d.clients cid).xfrs.head? == some xid &&
      sbefifo_buf_nbwriteable (d.clients cid).wbuf != 0)

/-- `sbefifo_read_ready`: the device failed, or the read ring has data, or
the client's oldest transfer is complete. -/
def sbefifo_read_ready (d : SbefifoDev) (cid : Nat) : Bool :=
  d.rc != 0 || sbefifo_buf_nbreadable (d.clients cid).rbuf != 0 ||
    (match (d.clients cid).xfrs.head? with
     | some i => (d.xfrs i).complete
     | none => false)

/-- `wait_event_interruptible`: sleep until the condition holds, woken by
poller progress.  Modelled by running the armed poll timer between
condition checks. -/
def waitEvent {σ : Type} (B : FsiBackend σ) (tickFuel now : Nat)
    (cond : SbefifoDev → Bool) :
    Nat → SbefifoDev → σ → Option (SbefifoDev × σ)
  | 0, _, _ => none
  | f + 1, d, s =>
    if cond d then some (d, s)
    else if d.timerArmed then
      let (d, s, _) := sbefifo_poll_timer B tickFuel now d s
      waitEvent B tickFuel now cond f d s
    else none

/-- The copy loop of `sbefifo_write_common`: wait for room (and for this
transfer to be the client's oldest), fail out with the latched `rc`,
otherwise copy `min(room, len)` bytes into the write ring, mark
write-done on the final chunk, and kick the poll timer. -/
def sbefifo_write_loop {σ : Type} (B : FsiBackend σ)
    (tickFuel waitFuel now cid xid : Nat) :
    Nat → SbefifoDev → σ → List Nat → Nat → Int →
    Option (SbefifoDev × σ × Int)
  | 0, _, _, _, _, _ => none
  | f + 1, d, s, ubuf, len, ret =>
    if len = 0 then some (d, s, ret)
    else
      match waitEvent B tickFuel now (fun d => sbefifo_write_ready d cid xid)
          waitFuel d s with
      | none => none
      | some (d, s) =>
        if d.rc ≠ 0 then
          let cl := d.clients cid
          let d :=
            { d with
              clients := Function.update d.clients cid
                ({ cl with xfrs := [] }) }
          some (d, s, d.rc)
        else
          let n := min (sbefifo_buf_nbwriteable (d.clients cid).wbuf) len
          let cl := d.clients cid
          let wbuf :=
            { cl.wbuf with
              buf := store_words cl.wbuf.buf cl.wbuf.wpos
                (ubuf.take (n >>> 2)) }
          let wbuf := (sbefifo_buf_wrotenb wbuf n).1
          let d :=
            { d with
              clients := Function.update d.clients cid
                ({ cl with wbuf := wbuf }) }
          let len := len - n
          let ret := ret + (n : Int)
          let d :=
            if len = 0 then
              { d with
                xfrs := Function.update d.xfrs xid
                  ({ d.xfrs xid with writeDone := true }) }
            else d
          let d := { d with timerArmed := true }
          sbefifo_write_loop B tickFuel waitFuel now cid xid f d s
            (ubuf.drop (n >>> 2)) len ret

/-- `sbefifo_write_common`: reject a non-word-aligned length; a zero
length is a no-op; in non-blocking mode fail with `-EAGAIN` when a
transfer is already pending service and the write ring cannot take the
whole request; otherwise enqueue a transfer and run the copy loop.
`ubuf` is the caller's buffer as words, `len` the requested bytes. -/
def sbefifo_write_common {σ : Type} (B : FsiBackend σ)
    (tickFuel waitFuel now : Nat) (d : SbefifoDev) (s : σ) (cid : Nat)
    (ubuf : List Nat) (len : Nat) : Option (SbefifoDev × σ × Int) :=
  if (len >>> 2) <<< 2 ≠ len then some (d, s, -EINVAL)
  else if len = 0 then some (d, s, 0)
  else
    let n := sbefifo_buf_nbwriteable (d.clients cid).wbuf
    let nx := sbefifo_next_xfr d.xfrs d.xfrq
    let next := nx.1
    let d := { d with xfrq := nx.2 }
    if (d.clients cid).nonblock ∧ next.isSome ∧ n < len then
      some (d, s, -EAGAIN)
    else
      match sbefifo_enq_xfr d cid with
      | .error e => some (d, s, e)
      | .ok (d, xid) =>
        sbefifo_write_loop B tickFuel waitFuel now cid xid (len + 1) d s
          ubuf len 0

/-- `sbefifo_read_common`: reject a non-word-aligned length; in
non-blocking mode fail with `-EAGAIN` unless a response is pending; wait
until data, completion or device failure; copy out up to `len` bytes; if
the ring emptied, either re-kick the poller (transfer still running) or
retire the completed transfer from the client's list.  Returns the
return code and the words copied out. -/
def sbefifo_read_common {σ : Type} (B : FsiBackend σ)
    (tickFuel waitFuel now : Nat) (d : SbefifoDev) (s : σ) (cid : Nat)
    (len : Nat) : Option (SbefifoDev × σ × Int × List Nat) :=
  if (len >>> 2) <<< 2 ≠ len then some (d, s, -EINVAL, [])
  else if (d.clients cid).nonblock ∧ ¬sbefifo_xfr_rsp_pending d cid then
    some (d, s, -EAGAIN, [])
  else
    match waitEvent B tickFuel now (fun d => sbefifo_read_ready d cid)
        waitFuel d s with
    | none => none
    | some (d, s) =>
      if d.rc ≠ 0 then
        let cl := d.clients cid
        let d :=
          { d with
            clients := Function.update d.clients cid
              ({ cl with xfrs := [] }) }
        some (d, s, d.rc, [])
      else
        let cl := d.clients cid
        let n := min (sbefifo_buf_nbreadable cl.rbuf) len
        let out := read_words cl.rbuf.buf cl.rbuf.rpos (n >>> 2)
        let (rbuf, emptied) := sbefifo_buf_readnb cl.rbuf n
        let d :=
          { d with
            clients := Function.update d.clients cid
              ({ cl with rbuf := rbuf }) }
        if emptied then
          match (d.clients cid).xfrs with
          | [] => some (d, s, -EPROTO, out)
          | xid :: restxf =>
            if ¬(d.xfrs xid).complete then
              let d := { d with timerArmed := true }
              some (d, s, (n : Int), out)
            else
              let cl := d.clients cid
              let d :=
                { d with
                  clients := Function.update d.clients cid
                    ({ cl with xfrs := restxf }) }
              some (d, s, (n : Int), out)
        else some (d, s, (n : Int), out)

/-- `sbefifo_open`: fail with the latched `rc`, otherwise install a fresh
client at `cid`. -/
def sbefifo_open (d : SbefifoDev) (cid : Nat) (nonblock : Bool) :
    SbefifoDev × Int :=
  if d.rc ≠ 0 then (d, d.rc)
  else
    ({ d with
        clients := Function.update d.clients cid
          (sbefifo_client_new nonblock) }, 0)

/-! ## Scenario backends -/

/-- State of the loopback backend.

Modelled from the spec: the register backend itself is an external
collaborator (spec sections 1 and 6); the round-trip property of section 8
presupposes a healthy echo device, so every word written to the up FIFO
becomes readable on the down FIFO in order, the EOT-raise write appends
the EOT marker word, the down status reports `min(pending, 8)` readable
words and flags EOT once the marker is within the visible window, and the
up status always reports an empty (fully writable) up FIFO. -/
structure LoopSt where
  resp : List Nat
  eotIn : Bool

/-- Modelled from the spec: healthy loopback register backend (see
`LoopSt`). -/
def loopBackend : FsiBackend LoopSt :=
  { inw_up_sts := fun s => .ok (0, s)
    writew := fun s w => .ok { s with resp := s.resp ++ [w] }
    outw_eot_raise := fun s w => .ok { resp := s.resp ++ [w], eotIn := true }
    inw_down_sts := fun s =>
      .ok ((min s.resp.length 8) <<< 16 +
        (if s.eotIn ∧ s.resp.length ≤ 8 then 1 else 0), s)
    readw := fun s =>
      match s.resp with
      | [] => .ok (0, s)
      | w :: ws => .ok (w, { s with resp := ws })
    outw_eot_ack := fun s _ => .ok s }

/-- Modelled from the spec: a healthy backend whose down FIFO never has
data (the "SBE isn't running" scenario of the data-wait timeout). -/
def silentBackend : FsiBackend Unit :=
  { inw_up_sts := fun s => .ok (0, s)
    writew := fun s _ => .ok s
    outw_eot_raise := fun s _ => .ok s
    inw_down_sts := fun s => .ok (0, s)
    readw := fun s => .ok (0, s)
    outw_eot_ack := fun s _ => .ok s }

/-- Modelled from the spec: a healthy backend whose up status always
reports 4 occupied entries (4 free slots) and whose down FIFO never has
data; records the words written to the up FIFO. -/
def fourSlotBackend : FsiBackend (List Nat) :=
  { inw_up_sts := fun s => .ok (4 <<< 16, s)
    writew := fun s w => .ok (s ++ [w])
    outw_eot_raise := fun s _ => .ok s
    inw_down_sts := fun s => .ok (0, s)
    readw := fun s => .ok (0, s)
    outw_eot_ack := fun s _ => .ok s }


/-! ## Concrete scenario states -/

/-- A fresh device: no fatal error, empty queue, all client slots fresh
blocking clients, timer idle. -/
def devEmpty : SbefifoDev :=
  { rc := 0, xfrq := [], xfrs := fun _ => sbefifo_xfr_new 0,
    clients := fun _ => sbefifo_client_new false, timerArmed := false,
    nextId := 0 }

/-- Device state for the non-blocking-write gate: client 0 opened
non-blocking with a full write ring, and the head of the global queue is a
live transfer owned by client 0 itself. -/
def devC6 : SbefifoDev :=
  { rc := 0, xfrq := [0], xfrs := fun _ => sbefifo_xfr_new 0,
    clients := fun _ =>
      { sbefifo_client_new true with
        wbuf := (sbefifo_buf_wrotenb sbefifo_buf_init 128).1 },
    timerArmed := false, nextId := 1 }


/-- A ring holding the words `ws` (stored from slot 0, cursor at `0`,
write cursor past them). -/
def bufWithWords (ws : List Nat) : SbefifoBuf :=
  { sbefifo_buf_init with
    buf := store_words sbefifo_buf_init.buf 0 ws, wpos := ws.length }

/-- Data-wait timeout scenario: client 0's transfer (head of queue) is
response-pending with an expired data-wait deadline; client 1 has a
fresh transfer queued behind it. -/
def devC4 : SbefifoDev :=
  { rc := 0, xfrq := [0, 1],
    xfrs := fun i =>
      if i = 0 then
        { sbefifo_xfr_new 0 with
          respPending := true, wait_data_timeout := 50 }
      else sbefifo_xfr_new 1,
    clients := fun _ => sbefifo_client_new false,
    timerArmed := true, nextId := 2 }

/-- Spec section 8 drain scenario: client 0 has written 8 words (write
ring holds them, write marked done); the device reports 4 free slots at
every status poll. -/
def devC7 : SbefifoDev :=
  { rc := 0, xfrq := [0],
    xfrs := fun _ => { sbefifo_xfr_new 0 with writeDone := true },
    clients := fun _ =>
      { sbefifo_client_new false with
        wbuf := bufWithWords [1, 2, 3, 4, 5, 6, 7, 8] },
    timerArmed := true, nextId := 1 }


/-- A client-or-worker operation on the device, for stating invariants
over arbitrary operation sequences. -/
inductive DevOp where
  | op_open (cid : Nat) (nonblock : Bool)
  | op_write (cid : Nat) (ubuf : List Nat) (len : Nat)
  | op_read (cid : Nat) (len : Nat)
  | op_tick

/-- Run one operation; a blocked call (`none`) observes no return and
leaves the state as it was. -/
def runOp {σ : Type} (B : FsiBackend σ) (tf wf now : Nat) (d : SbefifoDev)
    (s : σ) : DevOp → SbefifoDev × σ × Option Int
  | .op_open cid nb =>
    let r := sbefifo_open d cid nb
    (r.1, s, some r.2)
  | .op_write cid ubuf len =>
    match sbefifo_write_common B tf wf now d s cid ubuf len with
    | none => (d, s, none)
    | some (d, s, r) => (d, s, some r)
  | .op_read cid len =>
    match sbefifo_read_common B tf wf now d s cid len with
    | none => (d, s, none)
    | some (d, s, r, _) => (d, s, some r)
  | .op_tick =>
    let r := sbefifo_poll_timer B tf now d s
    (r.1, r.2.1, none)

/-- Run a sequence of operations. -/
def runOps {σ : Type} (B : FsiBackend σ) (tf wf now : Nat) :
    List DevOp → SbefifoDev → σ → SbefifoDev × σ
  | [], d, s => (d, s)
  | op :: ops, d, s =>
    let r := runOp B tf wf now d s op
    runOps B tf wf now ops r.1 r.2.1


/-- Events affecting one transfer `xid` during its lifetime: the creating
write call finishing its final chunk (sets write-done), client teardown
marking it cancelled, and poll ticks. -/
inductive XfrEv where
  | ev_writer_done
  | ev_cancel
  | ev_tick (fuel now : Nat)

/-- Apply one event; the `Nat` component counts EOT raises performed by
ticks that serviced `xid` (a tick's raises belong to the transfer it
serviced, which is always the queue head). -/
def runXfrEv {σ : Type} (B : FsiBackend σ) (xid : Nat) :
    XfrEv → SbefifoDev × σ × Nat → SbefifoDev × σ × Nat
  | .ev_writer_done, (d, s, r) =>
    ({ d with
       xfrs := Function.update d.xfrs xid
         ({ d.xfrs xid with writeDone := true }) }, s, r)
  | .ev_cancel, (d, s, r) =>
    ({ d with
       xfrs := Function.update d.xfrs xid
         ({ d.xfrs xid with cancel := true }) }, s, r)
  | .ev_tick fuel now, (d, s, r) =>
    let t := sbefifo_poll_timer B fuel now d s
    (t.1, t.2.1,
      r + (if t.2.2.serviced = some xid then t.2.2.raises else 0))

def runXfrTrace {σ : Type} (B : FsiBackend σ) (xid : Nat) :
    List XfrEv → SbefifoDev × σ × Nat → SbefifoDev × σ × Nat
  | [], st => st
  | ev :: tr, st => runXfrTrace B xid tr (runXfrEv B xid ev st)

/-- Well-formed event traces for one transfer: the creating write call
sets write-done at most once, and not after the transfer was cancelled
(an aborted write cancels instead of finishing, and a client release can
only cancel a transfer whose write call has already returned). -/
def XfrTraceWF : Bool → Bool → List XfrEv → Prop
  | _, _, [] => True
  | wdSeen, seenC, .ev_writer_done :: tr =>
    wdSeen = false ∧ seenC = false ∧ XfrTraceWF true seenC tr
  | wdSeen, _, .ev_cancel :: tr => XfrTraceWF wdSeen true tr
  | wdSeen, seenC, .ev_tick _ _ :: tr => XfrTraceWF wdSeen seenC tr

/-- Lifetime invariant of one transfer: at most one EOT raise; a raise
has happened exactly when the transfer is response-pending, except that a
fatal latch may have killed the device right at the raise; flag
provenance (write-done / response-pending only after the writer finished
or a cancel, cancel only after a cancel event); and a latched device has
an empty queue. -/
def XfrInv (xid : Nat) (d : SbefifoDev) (raises : Nat)
    (wdSeen seenC : Bool) : Prop :=
  raises ≤ 1 ∧
  ((d.xfrs xid).respPending = true → raises = 1) ∧
  (raises = 1 →
    ((d.xfrs xid).respPending = true ∧ (d.xfrs xid).writeDone = false) ∨
      (d.rc ≠ 0 ∧ d.xfrq = [])) ∧
  ((d.xfrs xid).respPending = true → wdSeen = true ∨ seenC = true) ∧
  ((d.xfrs xid).writeDone = true → wdSeen = true ∨ seenC = true) ∧
  ((d.xfrs xid).cancel = true → seenC = true) ∧
  (d.rc ≠ 0 → d.xfrq = [])

/-! ## Round-trip session states (claim C1)

On the loopback backend a single client's write-then-read session keeps
both rings linear: every drain empties the write ring within one tick and
every fill starts from an empty read ring at slot 0, so ring contents are
always a word list stored from slot 0. -/

/-- A ring with backing store `g`, empty with both cursors at `p`. -/
def emptyRing (g : Nat → Nat) (p : Nat) : SbefifoBuf :=
  { buf := g, full := false, rpos := p, wpos := p }

/-- A ring holding words `j..m-1` of an `m`-word run, read cursor at `j`:
the intermediate states of draining an `m`-word chunk. -/
def drainRing (g : Nat → Nat) (m j : Nat) : SbefifoBuf :=
  { buf := g, full := decide (m = 32) && decide (j = 0), rpos := j % 32,
    wpos := m % 32 }

/-- A ring holding the word list `ws` from slot 0 over garbage `g`. -/
def linRing (g : Nat → Nat) (ws : List Nat) : SbefifoBuf :=
  drainRing (store_words g 0 ws) ws.length 0

/-- The round-trip session's single client: blocking, one transfer. -/
def rtCl (rb wb : SbefifoBuf) (xl : List Nat) : SbefifoClient :=
  { rbuf := rb, wbuf := wb, xfrs := xl, nonblock := false }

/-- The round-trip session's device: healthy, client 0 live with client
state `cl`, the one transfer (id 0) in state `x`, queue `q`. -/
def rtDev (x : SbefifoXfr) (cl : SbefifoClient) (q : List Nat)
    (ta : Bool) : SbefifoDev :=
  { rc := 0, xfrq := q,
    xfrs := Function.update (fun _ => sbefifo_xfr_new 0) 0 x,
    clients := Function.update (fun _ => sbefifo_client_new false) 0 cl,
    timerArmed := ta, nextId := 1 }

/-- Modelled from the spec: "reads totalling n words" — userspace calls
read repeatedly with the remaining byte count until it reaches zero,
concatenating the chunks; a non-positive return aborts. -/
def sbefifo_read_all {σ : Type} (B : FsiBackend σ) (tf wf now cid : Nat) :
    Nat → SbefifoDev → σ → Nat → Option (SbefifoDev × σ × List Nat)
  | 0, d, s, rem => if rem = 0 then some (d, s, []) else none
  | f + 1, d, s, rem =>
    if rem = 0 then some (d, s, [])
    else
      match sbefifo_read_common B tf wf now d s cid rem with
      | none => none
      | some (d, s, ret, out) =>
        if ret ≤ 0 then none
        else
          match sbefifo_read_all B tf wf now cid f d s
              (rem - ret.toNat) with
          | none => none
          | some (d, s, rest) => some (d, s, out ++ rest)

/-! ## Theorems -/

theorem shiftr2 (k : Nat) : (4 * k) >>> 2 = k := by
  simp only [Nat.shiftRight_eq_div_pow]
  omega

theorem shiftl2 (k : Nat) : k <<< 2 = 4 * k := by
  simp only [Nat.shiftLeft_eq]
  ring

theorem ite_bool_eq_true {c : Prop} [Decidable c] :
    ((if c then true else false) = true) ↔ c := by
  split_ifs with h <;> simp [h]

theorem bufInv_init : BufInv sbefifo_buf_init := by
  refine ⟨?_, ?_, ?_⟩ <;> simp [sbefifo_buf_init]

theorem bufInv_wrotenb {b : SbefifoBuf} {n : Nat} (h : BufInv b)
    (hd : 4 ∣ n) (hb : n ≤ sbefifo_buf_nbwriteable b) :
    BufInv (sbefifo_buf_wrotenb b n).1 := by
  obtain ⟨k, rfl⟩ := hd
  obtain ⟨h1, h2, h3⟩ := h
  simp only [sbefifo_buf_nbwriteable, SBEFIFO_BUF_CNT, shiftl2] at hb
  simp only [BufInv, sbefifo_buf_wrotenb, SBEFIFO_BUF_CNT, shiftr2]
  rcases hf : b.full with _ | _
  · simp only [hf, Bool.false_eq_true, if_false, ite_bool_eq_true] at hb ⊢
    refine ⟨h1, ?_, ?_⟩
    · split_ifs at hb ⊢ <;> omega
    · intro hfl
      split_ifs at hb hfl ⊢ <;> omega
  · have hrw := h3 hf
    simp only [hf, if_true] at hb ⊢
    have hk0 : k = 0 := by omega
    subst hk0
    refine ⟨h1, ?_, ?_⟩
    · split_ifs <;> omega
    · intro _
      split_ifs <;> omega

theorem bufInv_readnb {b : SbefifoBuf} {n : Nat} (h : BufInv b)
    (hd : 4 ∣ n) (hb : n ≤ sbefifo_buf_nbreadable b)
    (hc : b.rpos + (n >>> 2) ≤ SBEFIFO_BUF_CNT) :
    BufInv (sbefifo_buf_readnb b n).1 := by
  obtain ⟨k, rfl⟩ := hd
  obtain ⟨h1, h2, h3⟩ := h
  simp only [sbefifo_buf_nbreadable, SBEFIFO_BUF_CNT, Nat.shiftLeft_eq]
    at hb
  simp only [SBEFIFO_BUF_CNT, shiftr2] at hc
  simp only [BufInv, sbefifo_buf_readnb, SBEFIFO_BUF_CNT, shiftr2]
  refine ⟨?_, h2, ?_⟩
  · split <;> omega
  · intro hfl
    by_cases hk0 : 4 * k = 0
    · have hkz : k = 0 := by omega
      subst hkz
      simp only [hk0, ne_eq, not_true_eq_false, if_false] at hfl
      have hfb : b.full = true := hfl
      have hrw := h3 hfb
      split <;> omega
    · simp only [ne_eq, hk0, not_false_eq_true, if_true] at hfl
      exact absurd hfl (by simp)

theorem bufInv_reach {b : SbefifoBuf} (h : BufReach b) : BufInv b := by
  induction h with
  | init => exact bufInv_init
  | wr _ hd hb ih => exact bufInv_wrotenb ih hd hb
  | rd _ hd hb hc ih => exact bufInv_readnb ih hd hb hc

/-- ### Claim C2 (counterexample)
The claim as stated is false: from the fresh ring, `commit_write(8)`
followed by `commit_read(4)` (both within the reported bounds) leaves
`writable_bytes() = 120` and `readable_bytes() = 4`, summing to 124, not
the capacity 128. -/
theorem c2_sum_counterexample :
    8 ≤ sbefifo_buf_nbwriteable sbefifo_buf_init ∧
    4 ≤ sbefifo_buf_nbreadable (sbefifo_buf_wrotenb sbefifo_buf_init 8).1 ∧
    sbefifo_buf_nbwriteable
        (sbefifo_buf_readnb (sbefifo_buf_wrotenb sbefifo_buf_init 8).1 4).1 +
      sbefifo_buf_nbreadable
        (sbefifo_buf_readnb (sbefifo_buf_wrotenb sbefifo_buf_init 8).1 4).1 ≠
      128 := by
  refine ⟨?_, ?_, ?_⟩ <;> decide

/-- ### Claim C2 (amended)
For every ring state reachable by bounded word-aligned commits (reads also
staying inside the backing array, as all in-tree callers do),
`writable_bytes() + readable_bytes()` is at most the capacity of 128
bytes — equality can fail because both reports count only the contiguous
run — and the full flag is set iff `writable_bytes() = 0`. -/
theorem c2_ring_invariant {b : SbefifoBuf} (h : BufReach b) :
    sbefifo_buf_nbwriteable b + sbefifo_buf_nbreadable b ≤ 128 ∧
      (b.full = true ↔ sbefifo_buf_nbwriteable b = 0) := by
  obtain ⟨h1, h2, h3⟩ := bufInv_reach h
  simp only [sbefifo_buf_nbwriteable, sbefifo_buf_nbreadable,
    SBEFIFO_BUF_CNT, Nat.shiftLeft_eq]
  constructor
  · rcases hf : b.full with _ | _
    · simp only [hf, Bool.false_eq_true, if_false]
      split <;> split <;> omega
    · simp [hf]
  · rcases hf : b.full with _ | _
    · simp only [hf, Bool.false_eq_true, if_false, false_iff]
      split <;> omega
    · simp [hf]

/-- Witness for `c2_ring_invariant` at the concrete reachable state
obtained by writing 8 bytes into the fresh ring. -/
theorem c2_ring_invariant_witness :
    sbefifo_buf_nbwriteable (sbefifo_buf_wrotenb sbefifo_buf_init 8).1 +
        sbefifo_buf_nbreadable (sbefifo_buf_wrotenb sbefifo_buf_init 8).1 ≤
        128 ∧
      ((sbefifo_buf_wrotenb sbefifo_buf_init 8).1.full = true ↔
        sbefifo_buf_nbwriteable (sbefifo_buf_wrotenb sbefifo_buf_init 8).1 =
          0) :=
  c2_ring_invariant (BufReach.wr BufReach.init (by decide) (by decide))

/-- ### Claim C8 (counterexample)
`commit_read(0)` on a reachable full ring returns `true` ("buffer is now
empty") although the ring still holds all 32 words, so the claim's
"including n = 0" part is false. -/
theorem c8_counterexample :
    128 ≤ sbefifo_buf_nbwriteable sbefifo_buf_init ∧
    (sbefifo_buf_readnb (sbefifo_buf_wrotenb sbefifo_buf_init 128).1 0).2 =
        true ∧
    sbefifo_buf_nbreadable
        (sbefifo_buf_readnb (sbefifo_buf_wrotenb sbefifo_buf_init 128).1
          0).1 ≠ 0 := by
  refine ⟨?_, ?_, ?_⟩ <;> decide

/-- ### Claim C8 (amended)
On every reachable ring state and word-aligned in-bounds count:
`commit_read(n)` with `n > 0` clears the full flag and returns `true` iff
the ring is empty afterwards (no readable bytes); `commit_write(n)`
returns `true` iff the full flag is set afterwards (including `n = 0`).
The `n = 0` case of `commit_read` is excluded: on a full ring it reports
"empty" spuriously (see the counterexample). -/
theorem c8_commit_results {b : SbefifoBuf} (h : BufReach b) :
    (∀ n : Nat, 4 ∣ n → n ≤ sbefifo_buf_nbreadable b →
      b.rpos + (n >>> 2) ≤ SBEFIFO_BUF_CNT → 0 < n →
      (sbefifo_buf_readnb b n).1.full = false ∧
        ((sbefifo_buf_readnb b n).2 = true ↔
          sbefifo_buf_nbreadable (sbefifo_buf_readnb b n).1 = 0)) ∧
    (∀ n : Nat, 4 ∣ n → n ≤ sbefifo_buf_nbwriteable b →
      ((sbefifo_buf_wrotenb b n).2 = true ↔
        (sbefifo_buf_wrotenb b n).1.full = true)) := by
  obtain ⟨h1, h2, h3⟩ := bufInv_reach h
  constructor
  · intro n hd hb hc hn
    obtain ⟨k, rfl⟩ := hd
    simp only [sbefifo_buf_nbreadable, SBEFIFO_BUF_CNT, shiftl2] at hb
    simp only [SBEFIFO_BUF_CNT, shiftr2] at hc
    have hk0 : 4 * k ≠ 0 := by omega
    simp only [sbefifo_buf_readnb, sbefifo_buf_nbreadable, SBEFIFO_BUF_CNT,
      shiftr2, shiftl2, ne_eq, hk0, not_false_eq_true, if_true,
      Bool.false_eq_true, if_false, decide_eq_true_eq]
    refine ⟨trivial, ?_⟩
    rcases hf : b.full with _ | _
    · simp only [hf, Bool.false_eq_true, if_false] at hb
      constructor <;> intro he <;> split_ifs at hb he ⊢ <;> omega
    · have hrw := h3 hf
      simp only [hf, if_true] at hb
      constructor <;> intro he <;> split_ifs at he ⊢ <;> omega
  · intro n hd hb
    obtain ⟨k, rfl⟩ := hd
    simp only [sbefifo_buf_nbwriteable, SBEFIFO_BUF_CNT, shiftl2] at hb
    simp only [sbefifo_buf_wrotenb, SBEFIFO_BUF_CNT, shiftr2,
      decide_eq_true_eq]
    rcases hf : b.full with _ | _
    · simp only [hf, Bool.false_eq_true, if_false, ite_bool_eq_true] at hb ⊢
      constructor <;> intro he <;> split_ifs at hb he ⊢ <;> omega
    · have hrw := h3 hf
      simp only [hf, if_true] at hb ⊢
      have hk0 : k = 0 := by omega
      subst hk0
      simp only [hrw, ite_self, Nat.add_zero, iff_true]
      split_ifs <;> omega

/-- Witness for `c8_commit_results`: a 4-byte read and a 4-byte write on
the reachable ring holding one word. -/
theorem c8_commit_results_witness :
    ((sbefifo_buf_wrotenb (sbefifo_buf_wrotenb sbefifo_buf_init 4).1 4).2 =
        true ↔
      (sbefifo_buf_wrotenb (sbefifo_buf_wrotenb sbefifo_buf_init 4).1
          4).1.full = true) :=
  (c8_commit_results (BufReach.wr BufReach.init (by decide) (by decide))).2
    4 (by decide) (by decide)


theorem align_iff (len : Nat) : (len >>> 2) <<< 2 = len ↔ len % 4 = 0 := by
  simp only [Nat.shiftRight_eq_div_pow, Nat.shiftLeft_eq]
  omega

/-- ### Claim C9
Every `read(len)` and `write(len)` whose byte length is not a multiple of
the word size fails immediately with `-EINVAL` — the device and backend
states are returned unchanged, no data is produced and nothing is
enqueued — for every client (hence both blocking and non-blocking modes)
and every backend. -/
theorem c9_alignment {σ : Type} (B : FsiBackend σ) (tf wf now cid len : Nat)
    (d : SbefifoDev) (s : σ) (h : len % 4 ≠ 0) :
    sbefifo_read_common B tf wf now d s cid len =
      some (d, s, -EINVAL, []) ∧
    ∀ ubuf : List Nat,
      sbefifo_write_common B tf wf now d s cid ubuf len =
        some (d, s, -EINVAL) := by
  have hne : ¬((len >>> 2) <<< 2 = len) := by
    rw [align_iff]
    exact h
  constructor
  · simp only [sbefifo_read_common, ne_eq, hne, not_false_eq_true, if_true]
  · intro ubuf
    simp only [sbefifo_write_common, ne_eq, hne, not_false_eq_true, if_true]

/-- Witness for `c9_alignment`: a 5-byte read and write on a fresh device
both fail with `-EINVAL` and change nothing. -/
theorem c9_alignment_witness :
    5 % 4 ≠ 0 ∧
    (sbefifo_read_common silentBackend 1 1 0 devEmpty () 0 5 =
        some (devEmpty, (), -EINVAL, []) ∧
      ∀ ubuf : List Nat,
        sbefifo_write_common silentBackend 1 1 0 devEmpty () 0 ubuf 5 =
          some (devEmpty, (), -EINVAL)) :=
  ⟨by decide, c9_alignment silentBackend 1 1 0 0 5 devEmpty () (by decide)⟩

/-- ### Claim C6 (counterexample)
The claim requires the would-block failure only when the head of the
global queue belongs to *another* client.  In `devC6` the head transfer
belongs to client 0 itself, yet client 0's non-blocking 4-byte write
fails with `-EAGAIN`, enqueueing nothing and copying nothing. -/
theorem c6_counterexample :
    (devC6.xfrs 0).owner = 0 ∧ (devC6.clients 0).nonblock = true ∧
    devC6.xfrq = [0] ∧ ¬(devC6.xfrs 0).cancel ∧
    (sbefifo_write_common silentBackend 1 1 0 devC6 () 0 [1] 4).map
        (fun t => t.2.2) = some (-EAGAIN) ∧
    (sbefifo_write_common silentBackend 1 1 0 devC6 () 0 [1] 4).map
        (fun t => t.1.xfrq) = some [0] ∧
    (sbefifo_write_common silentBackend 1 1 0 devC6 () 0 [1] 4).map
        (fun t => (t.1.clients 0).xfrs) = some [] := by
  refine ⟨rfl, rfl, rfl, by decide, rfl, rfl, rfl⟩

/-- ### Claim C6 (amended)
A non-blocking write of an aligned positive length fails with `-EAGAIN` —
pruning cancelled transfers from the head of the queue but enqueueing
nothing — exactly when the pruned queue still has a head transfer
(whichever client owns it) and the client's write ring has fewer free
bytes than the whole request; otherwise the write proceeds to enqueue a
fresh transfer at the tail and enter the copy loop. -/
theorem c6_nonblock_write_gate {σ : Type} (B : FsiBackend σ)
    (tf wf now cid : Nat) (d : SbefifoDev) (s : σ) (ubuf : List Nat)
    (len : Nat) (halign : len % 4 = 0) (hlen : len ≠ 0)
    (hnb : (d.clients cid).nonblock = true) (hrc : d.rc = 0) :
    (((sbefifo_next_xfr d.xfrs d.xfrq).1.isSome ∧
        sbefifo_buf_nbwriteable (d.clients cid).wbuf < len) →
      sbefifo_write_common B tf wf now d s cid ubuf len =
        some ({ d with xfrq := (sbefifo_next_xfr d.xfrs d.xfrq).2 }, s,
          -EAGAIN)) ∧
    (¬((sbefifo_next_xfr d.xfrs d.xfrq).1.isSome ∧
        sbefifo_buf_nbwriteable (d.clients cid).wbuf < len) →
      sbefifo_write_common B tf wf now d s cid ubuf len =
        sbefifo_write_loop B tf wf now cid
          ({ d with xfrq := (sbefifo_next_xfr d.xfrs d.xfrq).2 }).nextId
          (len + 1)
          (sbefifo_enq_xfr
              { d with xfrq := (sbefifo_next_xfr d.xfrs d.xfrq).2 } cid
            |>.toOption.map Prod.fst
            |>.getD { d with xfrq := (sbefifo_next_xfr d.xfrs d.xfrq).2 })
          s ubuf len 0) := by
  have heq : (len >>> 2) <<< 2 = len := (align_iff len).mpr halign
  constructor
  · intro hcond
    simp only [sbefifo_write_common, heq, ne_eq, not_true_eq_false,
      if_false, hlen, if_true, hnb]
    rw [if_pos]
    exact ⟨trivial, hcond.1, hcond.2⟩
  · intro hcond
    simp only [sbefifo_write_common, heq, ne_eq, not_true_eq_false,
      if_false, hlen, if_true, hnb]
    rw [if_neg]
    · simp only [sbefifo_enq_xfr]
      rw [if_neg (by simp [hrc])]
      rfl
    · intro hc
      exact hcond ⟨hc.2.1, hc.2.2⟩

/-- Witness for `c6_nonblock_write_gate` at `devC6`: the gate condition
holds there and the call returns `-EAGAIN`. -/
theorem c6_nonblock_write_gate_witness :
    4 % 4 = 0 ∧ (4 : Nat) ≠ 0 ∧ (devC6.clients 0).nonblock = true ∧
    devC6.rc = 0 ∧
    sbefifo_write_common silentBackend 1 1 0 devC6 () 0 [1] 4 =
      some ({ devC6 with xfrq := (sbefifo_next_xfr devC6.xfrs devC6.xfrq).2 },
        (), -EAGAIN) :=
  ⟨by decide, by decide, rfl, rfl,
    (c6_nonblock_write_gate silentBackend 1 1 0 0 devC6 () [1] 4 (by decide)
      (by decide) rfl rfl).1 (by refine ⟨by decide, by decide⟩)⟩


set_option maxHeartbeats 1000000 in
/-- Any nonzero `ret` reaching the `out:` epilogue of the poll routine —
a register-access error or the data-wait `-ETIME` alike — latches the
device-wide fatal code, empties the global queue and wakes all waiters. -/
theorem poll_fatal_latch {σ : Type} (B : FsiBackend σ) (fuel now : Nat)
    (d : SbefifoDev) (s : σ)
    (hr : (sbefifo_poll_timer B fuel now d s).2.2.ret ≠ 0) :
    (sbefifo_poll_timer B fuel now d s).1.rc =
        (sbefifo_poll_timer B fuel now d s).2.2.ret ∧
      (sbefifo_poll_timer B fuel now d s).1.xfrq = [] ∧
      (sbefifo_poll_timer B fuel now d s).2.2.woke = true := by
  revert hr
  simp only [sbefifo_poll_timer]
  repeat' split
  all_goals intro hr
  all_goals simp_all [sbefifo_poll_out, TickLog.quiet]

/-- ### Claim C4 (counterexample)
A data-wait timeout is not local to the transfer: in `devC4` the head
transfer of client 0 times out waiting for data, and the single poll tick
latches `-ETIME` as the device-wide fatal code and empties the global
queue, discarding client 1's queued transfer. -/
theorem c4_counterexample :
    (devC4.xfrs 1).owner = 1 ∧ devC4.xfrq = [0, 1] ∧
    (sbefifo_poll_timer silentBackend 100 100 devC4 ()).2.2.ret =
      -ETIME ∧
    (sbefifo_poll_timer silentBackend 100 100 devC4 ()).1.rc = -ETIME ∧
    (sbefifo_poll_timer silentBackend 100 100 devC4 ()).1.xfrq = [] := by
  refine ⟨by decide, by decide, by decide, by decide, by decide⟩

/-- ### Claim C4 (amended)
A data-wait timeout — `ret = -ETIME` from an expired deadline — is
treated exactly like a backend I/O failure: the poll routine latches it
as the device-wide fatal code, empties the global queue (discarding every
other client's queued transfer) and wakes all waiters; it is not local to
the one transfer. -/
theorem c4_timeout_global_fatal {σ : Type} (B : FsiBackend σ)
    (fuel now : Nat) (d : SbefifoDev) (s : σ)
    (hr : (sbefifo_poll_timer B fuel now d s).2.2.ret = -ETIME) :
    (sbefifo_poll_timer B fuel now d s).1.rc = -ETIME ∧
      (sbefifo_poll_timer B fuel now d s).1.xfrq = [] ∧
      (sbefifo_poll_timer B fuel now d s).2.2.woke = true := by
  have h := poll_fatal_latch B fuel now d s (by rw [hr]; decide)
  rw [hr] at h
  exact h

/-- Witness for `c4_timeout_global_fatal` at the concrete `devC4` run. -/
theorem c4_timeout_global_fatal_witness :
    (sbefifo_poll_timer silentBackend 100 100 devC4 ()).1.rc = -ETIME ∧
      (sbefifo_poll_timer silentBackend 100 100 devC4 ()).1.xfrq = [] ∧
      (sbefifo_poll_timer silentBackend 100 100 devC4 ()).2.2.woke =
        true :=
  c4_timeout_global_fatal silentBackend 100 100 devC4 () (by decide)

/-- ### Claim C7 (counterexample)
With 8 words in the write ring and the device reporting 4 free slots at
every status poll, a *single* poll tick already drains the whole ring and
raises EOT — the claim's "exactly 2 poll ticks before EOT" is false,
because the drain loop re-polls status within one tick and only a
zero-free-slot poll ends a tick. -/
theorem c7_counterexample :
    sbefifo_buf_nbreadable (devC7.clients 0).wbuf = 32 ∧
    (devC7.xfrs 0).writeDone = true ∧
    (sbefifo_poll_timer fourSlotBackend 100 0 devC7 []).2.2.raises = 1 ∧
    sbefifo_buf_nbreadable
      (((sbefifo_poll_timer fourSlotBackend 100 0 devC7 []).1.clients
        0).wbuf) = 0 := by
  refine ⟨by decide, by decide, by decide, by decide⟩

/-- ### Claim C7 (amended)
In the 8-words / 4-free-slots scenario the drain takes exactly one poll
tick containing exactly 2 status-poll bursts of 4 words each: the tick
writes the 8 words in order, empties the write ring, and raises EOT at
the end of that same tick, leaving the transfer response-pending. -/
theorem c7_one_tick_two_bursts :
    (sbefifo_poll_timer fourSlotBackend 100 0 devC7 []).2.2.upStsReads =
      2 ∧
    (sbefifo_poll_timer fourSlotBackend 100 0 devC7 []).2.1 =
      [1, 2, 3, 4, 5, 6, 7, 8] ∧
    (sbefifo_poll_timer fourSlotBackend 100 0 devC7 []).2.2.raises = 1 ∧
    sbefifo_buf_nbreadable
      (((sbefifo_poll_timer fourSlotBackend 100 0 devC7 []).1.clients
        0).wbuf) = 0 ∧
    ((sbefifo_poll_timer fourSlotBackend 100 0 devC7 []).1.xfrs
      0).respPending = true := by
  refine ⟨by decide, by decide, by decide, by decide, by decide⟩


theorem runOp_latched {σ : Type} (B : FsiBackend σ) (tf wf now : Nat)
    (e : Int) (he : e ≠ 0) (op : DevOp) (d : SbefifoDev) (s : σ)
    (h1 : d.rc = e) (h2 : d.xfrq = []) :
    (runOp B tf wf now d s op).1.rc = e ∧
      (runOp B tf wf now d s op).1.xfrq = [] := by
  cases op with
  | op_open cid nb =>
    simp [runOp, sbefifo_open, h1, h2, he]
  | op_tick =>
    simp [runOp, sbefifo_poll_timer, h1, h2]
  | op_write cid ubuf len =>
    simp only [runOp, sbefifo_write_common, h2, sbefifo_next_xfr]
    split_ifs <;>
      simp_all [sbefifo_enq_xfr, sbefifo_next_xfr, h1, he]
  | op_read cid len =>
    simp only [runOp, sbefifo_read_common]
    split_ifs with ha hb
    · simp [h1, h2]
    · simp [h1, h2]
    · cases wf with
      | zero => simp [waitEvent, h1, h2]
      | succ wf =>
        have hc : sbefifo_read_ready d cid = true := by
          simp [sbefifo_read_ready, h1, he]
        simp only [waitEvent, hc, if_true]
        simp [h1, h2, he]

theorem runOps_latched {σ : Type} (B : FsiBackend σ) (tf wf now : Nat)
    (e : Int) (he : e ≠ 0) (ops : List DevOp) (d : SbefifoDev) (s : σ)
    (h1 : d.rc = e) (h2 : d.xfrq = []) :
    (runOps B tf wf now ops d s).1.rc = e ∧
      (runOps B tf wf now ops d s).1.xfrq = [] := by
  induction ops generalizing d s with
  | nil => exact ⟨h1, h2⟩
  | cons op ops ih =>
    have h := runOp_latched B tf wf now e he op d s h1 h2
    simp only [runOps]
    exact ih _ _ h.1 h.2

/-- ### Claim C3
The fatal latch: (a) the tick that latches a nonzero code empties the
global queue; (b) once `rc = e ≠ 0` with an empty queue, no sequence of
opens, writes, reads and poll ticks ever changes `rc` or repopulates the
queue; (c) every subsequent open, (d) every write that reaches the
enqueue attempt (aligned, nonzero length, any mode), and (e) every
blocking aligned read — on existing or new clients — returns that same
code `e`. -/
theorem c3_fatal_latch {σ : Type} (B : FsiBackend σ) (tf wf now : Nat)
    (e : Int) (he : e ≠ 0) :
    (∀ (d : SbefifoDev) (s : σ),
      (sbefifo_poll_timer B tf now d s).2.2.ret = e →
        (sbefifo_poll_timer B tf now d s).1.rc = e ∧
          (sbefifo_poll_timer B tf now d s).1.xfrq = []) ∧
    (∀ (ops : List DevOp) (d : SbefifoDev) (s : σ), d.rc = e →
      d.xfrq = [] →
        (runOps B tf wf now ops d s).1.rc = e ∧
          (runOps B tf wf now ops d s).1.xfrq = []) ∧
    (∀ (d : SbefifoDev) (cid : Nat) (nb : Bool), d.rc = e →
      (sbefifo_open d cid nb).2 = e) ∧
    (∀ (d : SbefifoDev) (s : σ) (cid : Nat) (ubuf : List Nat) (len : Nat),
      d.rc = e → d.xfrq = [] → len % 4 = 0 → len ≠ 0 →
        (sbefifo_write_common B tf wf now d s cid ubuf len).map
          (fun t => t.2.2) = some e) ∧
    (∀ (d : SbefifoDev) (s : σ) (cid len : Nat), d.rc = e →
      (d.clients cid).nonblock = false → len % 4 = 0 →
        (sbefifo_read_common B tf (wf + 1) now d s cid len).map
          (fun t => t.2.2.1) = some e) := by
  refine ⟨?_, ?_, ?_, ?_, ?_⟩
  · intro d s hret
    have h := poll_fatal_latch B tf now d s (by rw [hret]; exact he)
    rw [hret] at h
    exact ⟨h.1, h.2.1⟩
  · intro ops d s h1 h2
    exact runOps_latched B tf wf now e he ops d s h1 h2
  · intro d cid nb h1
    simp [sbefifo_open, h1, he]
  · intro d s cid ubuf len h1 h2 ha hl
    have heq : (len >>> 2) <<< 2 = len := (align_iff len).mpr ha
    simp only [sbefifo_write_common, heq, ne_eq, not_true_eq_false,
      if_false, hl, if_true, h2, sbefifo_next_xfr]
    simp [sbefifo_enq_xfr, h1, he, hl]
  · intro d s cid len h1 hnb ha
    have heq : (len >>> 2) <<< 2 = len := (align_iff len).mpr ha
    have hc : sbefifo_read_ready d cid = true := by
      simp [sbefifo_read_ready, h1, he]
    simp only [sbefifo_read_common, heq, ne_eq, not_true_eq_false,
      if_false, hnb, waitEvent, hc, if_true]
    simp [h1, he, hnb]

/-- Witness for `c3_fatal_latch` at `e = -ETIME` with the silent backend
on a latched device. -/
theorem c3_fatal_latch_witness :
    (-ETIME : Int) ≠ 0 ∧
    ({ devEmpty with rc := -ETIME } : SbefifoDev).rc = -ETIME ∧
    (sbefifo_open { devEmpty with rc := -ETIME } 3 false).2 = -ETIME :=
  ⟨by decide, rfl,
    (c3_fatal_latch silentBackend 1 1 0 (-ETIME) (by decide)).2.2.1
      { devEmpty with rc := -ETIME } 3 false rfl⟩


theorem cancel_overlay_rp (x : SbefifoXfr) (h : x.respPending = true) :
    sbefifo_cancel_overlay x = x := by
  unfold sbefifo_cancel_overlay
  rw [if_neg]
  simp [h]

theorem cancel_overlay_rp_eq (x : SbefifoXfr) :
    (sbefifo_cancel_overlay x).respPending = x.respPending := by
  unfold sbefifo_cancel_overlay
  split_ifs <;> rfl

theorem cancel_overlay_cancel_eq (x : SbefifoXfr) :
    (sbefifo_cancel_overlay x).cancel = x.cancel := by
  unfold sbefifo_cancel_overlay
  split_ifs <;> rfl

theorem cancel_overlay_wd (x : SbefifoXfr)
    (h : (sbefifo_cancel_overlay x).writeDone = true) :
    x.writeDone = true ∨ x.cancel = true := by
  unfold sbefifo_cancel_overlay at h
  split_ifs at h with hc
  · exact Or.inr hc.1
  · exact Or.inl h

theorem poll_serviced_head {σ : Type} (B : FsiBackend σ) (fuel now : Nat)
    (d : SbefifoDev) (s : σ) :
    (sbefifo_poll_timer B fuel now d s).2.2.serviced = d.xfrq.head? := by
  simp only [sbefifo_poll_timer]
  repeat' split
  all_goals simp_all [TickLog.quiet]

theorem writeback_xfrq (d : SbefifoDev) (c : Bool) (o : Nat)
    (r w : SbefifoBuf) : (sbefifo_writeback d c o r w).xfrq = d.xfrq := by
  unfold sbefifo_writeback
  split <;> rfl

theorem writeback_rc (d : SbefifoDev) (c : Bool) (o : Nat)
    (r w : SbefifoBuf) : (sbefifo_writeback d c o r w).rc = d.rc := by
  unfold sbefifo_writeback
  split <;> rfl

theorem writeback_xfrs (d : SbefifoDev) (c : Bool) (o : Nat)
    (r w : SbefifoBuf) : (sbefifo_writeback d c o r w).xfrs = d.xfrs := by
  unfold sbefifo_writeback
  split <;> rfl

theorem next_xfr_suffix (xs : Nat → SbefifoXfr) (l : List Nat) :
    (sbefifo_next_xfr xs l).2 <:+ l := by
  induction l with
  | nil => simp [sbefifo_next_xfr]
  | cons i rest ih =>
    simp only [sbefifo_next_xfr]
    split_ifs
    · exact ih.trans (List.suffix_cons i rest)
    · exact List.suffix_refl _

theorem next_xfr_dropped (xs : Nat → SbefifoXfr) (l : List Nat) (i : Nat)
    (hi : i ∈ l) (hni : i ∉ (sbefifo_next_xfr xs l).2) :
    (xs i).cancel = true := by
  induction l with
  | nil => cases hi
  | cons j rest ih =>
    simp only [sbefifo_next_xfr] at hni
    by_cases hc : (xs j).cancel = true
    · rw [if_pos hc] at hni
      rcases List.mem_cons.mp hi with rfl | hi2
      · exact hc
      · exact ih hi2 hni
    · rw [if_neg hc] at hni
      exact absurd hi hni

/-- ### Claim C5
Strict FIFO service with one active transfer: every poll tick operates
exclusively on the head of the global queue (`serviced = head?`); it only
ever consumes the queue from the front (the new queue is a suffix of the
old, so relative order is preserved and no later transfer is serviced
early); a transfer leaves the queue only terminally — completed,
cancelled-and-discarded, or together with everything else on a fatal
latch; and enqueueing appends at the tail.  Hence if A is enqueued before
B, B becomes the serviced head only after A has left the queue in a
terminal state. -/
theorem poll_out_suffix (d : SbefifoDev) (ret : Int) (eot : Bool) :
    (sbefifo_poll_out d ret eot).xfrq <:+ d.xfrq := by
  unfold sbefifo_poll_out
  split_ifs
  · exact List.nil_suffix
  · have h := next_xfr_suffix d.xfrs d.xfrq
    split
    · rename_i a q heq
      rw [heq] at h
      exact h
    · rename_i q heq
      rw [heq] at h
      exact h
  · exact List.suffix_refl _

theorem poll_out_xfrs (d : SbefifoDev) (ret : Int) (eot : Bool) :
    (sbefifo_poll_out d ret eot).xfrs = d.xfrs := by
  unfold sbefifo_poll_out
  split_ifs
  · rfl
  · split <;> rfl
  · rfl

theorem poll_out_removal (d : SbefifoDev) (ret : Int) (eot : Bool) (i : Nat)
    (hi : i ∈ d.xfrq) (hni : i ∉ (sbefifo_poll_out d ret eot).xfrq) :
    (d.xfrs i).cancel = true ∨ (sbefifo_poll_out d ret eot).rc ≠ 0 := by
  unfold sbefifo_poll_out at hni ⊢
  split_ifs at hni ⊢ with h1 h2
  · right
    simpa using h1
  · left
    have h := next_xfr_dropped d.xfrs d.xfrq i hi
    split at hni
    · rename_i a q heq
      apply h
      rw [heq]
      exact hni
    · rename_i q heq
      apply h
      rw [heq]
      exact hni
  · exact absurd hi hni

theorem poll_out_removal3 (X : SbefifoDev) (ret : Int) (eot : Bool)
    (i : Nat) (hi : i ∈ X.xfrq)
    (hni : i ∉ (sbefifo_poll_out X ret eot).xfrq) :
    ((sbefifo_poll_out X ret eot).xfrs i).complete = true ∨
      ((sbefifo_poll_out X ret eot).xfrs i).cancel = true ∨
      (sbefifo_poll_out X ret eot).rc ≠ 0 := by
  rcases poll_out_removal X ret eot i hi hni with h | h
  · right
    left
    rw [poll_out_xfrs]
    exact h
  · right
    right
    exact h

/-- ### Claim C5
Strict FIFO service with one active transfer: every poll tick operates
exclusively on the head of the global queue (`serviced = head?`); it only
ever consumes the queue from the front (the new queue is a suffix of the
old, so relative order is preserved and no later transfer is serviced
early); a transfer leaves the queue only terminally — completed,
cancelled-and-discarded, or together with everything else on a fatal
latch; and enqueueing appends at the tail.  Hence if A is enqueued before
B, B becomes the serviced head only after A has left the queue in a
terminal state. -/
theorem c5_fifo_service {σ : Type} (B : FsiBackend σ) (fuel now : Nat)
    (d : SbefifoDev) (s : σ) :
    (sbefifo_poll_timer B fuel now d s).2.2.serviced = d.xfrq.head? ∧
    (sbefifo_poll_timer B fuel now d s).1.xfrq <:+ d.xfrq ∧
    (∀ i, i ∈ d.xfrq → i ∉ (sbefifo_poll_timer B fuel now d s).1.xfrq →
      ((sbefifo_poll_timer B fuel now d s).1.xfrs i).complete = true ∨
        ((sbefifo_poll_timer B fuel now d s).1.xfrs i).cancel = true ∨
        (sbefifo_poll_timer B fuel now d s).1.rc ≠ 0) ∧
    (∀ (d0 d1 : SbefifoDev) (cid xid : Nat),
      sbefifo_enq_xfr d0 cid = .ok (d1, xid) →
        d1.xfrq = d0.xfrq ++ [xid]) := by
  refine ⟨poll_serviced_head B fuel now d s, ?_, ?_, ?_⟩
  · simp only [sbefifo_poll_timer]
    repeat' split
    all_goals
      first
      | exact List.suffix_refl _
      | (simp only [writeback_xfrq]
         exact List.suffix_refl _)
      | (refine (poll_out_suffix _ _ _).trans ?_
         simp only [writeback_xfrq]
         first
         | exact List.suffix_refl _
         | simp_all [List.suffix_cons])
  · intro i hi hni
    rcases hq : d.xfrq with _ | ⟨x0, rest⟩
    · rw [hq] at hi
      cases hi
    · rw [hq] at hi
      revert hni
      simp only [sbefifo_poll_timer, hq]
      repeat' split
      all_goals intro hni
      all_goals
        first
        | exact absurd hi hni
        | (simp only [writeback_xfrq] at hni
           exact absurd hi hni)
        | exact poll_out_removal3 _ _ _ i
            (by simp only [writeback_xfrq]; exact hi) hni
        | (by_cases hx : i = x0
           · subst hx
             left
             simp [poll_out_xfrs, writeback_xfrs, sbefifo_xfr_done]
           · rcases List.mem_cons.mp hi with h0 | hi2
             · exact absurd h0 hx
             · exact poll_out_removal3 _ _ _ i
                 (by simp only [writeback_xfrq]; exact hi2) hni)
  · intro d0 d1 cid xid h
    simp only [sbefifo_enq_xfr] at h
    split_ifs at h
    cases h
    rfl



theorem poll_other_flags {σ : Type} (B : FsiBackend σ) (fuel now : Nat)
    (d : SbefifoDev) (s : σ) (i : Nat) (h : d.xfrq.head? ≠ some i) :
    (sbefifo_poll_timer B fuel now d s).1.xfrs i = d.xfrs i := by
  rcases hq : d.xfrq with _ | ⟨x0, rest⟩
  · simp only [sbefifo_poll_timer, hq]
  · rw [hq] at h
    have hix : i ≠ x0 := by
      intro he
      exact h (by simp [he])
    simp only [sbefifo_poll_timer, hq]
    repeat' split
    all_goals
      simp [poll_out_xfrs, writeback_xfrs, Function.update_noteq hix]

set_option maxHeartbeats 1000000 in
theorem poll_rc_queue {σ : Type} (B : FsiBackend σ) (fuel now : Nat)
    (d : SbefifoDev) (s : σ) (h6 : d.rc ≠ 0 → d.xfrq = []) :
    (sbefifo_poll_timer B fuel now d s).1.rc ≠ 0 →
      (sbefifo_poll_timer B fuel now d s).1.xfrq = [] := by
  simp only [sbefifo_poll_timer]
  repeat' split
  all_goals intro hrc
  all_goals
    simp only [sbefifo_poll_out, writeback_rc, writeback_xfrq] at hrc ⊢
  all_goals (try split_ifs at hrc ⊢)
  all_goals (try (repeat' split at hrc))
  all_goals simp_all [writeback_rc, writeback_xfrq]


theorem poll_raises_le {σ : Type} (B : FsiBackend σ) (fuel now : Nat)
    (d : SbefifoDev) (s : σ) :
    (sbefifo_poll_timer B fuel now d s).2.2.raises ≤ 1 := by
  simp only [sbefifo_poll_timer]
  repeat' split
  all_goals simp [TickLog.quiet]

theorem poll_head_raise_wd {σ : Type} (B : FsiBackend σ) (fuel now : Nat)
    (d : SbefifoDev) (s : σ) (xid : Nat) (rest : List Nat)
    (hq : d.xfrq = xid :: rest)
    (h : (sbefifo_poll_timer B fuel now d s).2.2.raises = 1) :
    (sbefifo_cancel_overlay (d.xfrs xid)).writeDone = true := by
  by_cases hc : (sbefifo_cancel_overlay (d.xfrs xid)).writeDone = true
  · exact hc
  · exfalso
    revert h
    simp only [sbefifo_poll_timer, hq, hc]
    repeat' split
    all_goals intro h
    all_goals simp_all [TickLog.quiet]

theorem poll_head_rp_src {σ : Type} (B : FsiBackend σ) (fuel now : Nat)
    (d : SbefifoDev) (s : σ) (xid : Nat) (rest : List Nat)
    (hq : d.xfrq = xid :: rest)
    (h : ((sbefifo_poll_timer B fuel now d s).1.xfrs xid).respPending =
      true) :
    (d.xfrs xid).respPending = true ∨
      (sbefifo_poll_timer B fuel now d s).2.2.raises = 1 := by
  by_cases hc : (sbefifo_cancel_overlay (d.xfrs xid)).writeDone = true
  · revert h
    simp only [sbefifo_poll_timer, hq, hc]
    repeat' split
    all_goals intro h
    all_goals
      simp_all [TickLog.quiet, Function.update_same, writeback_xfrs,
        poll_out_xfrs, sbefifo_xfr_clear_wd, sbefifo_xfr_set_rp,
        sbefifo_xfr_wdt, sbefifo_xfr_done, cancel_overlay_rp_eq]
  · left
    revert h
    simp only [sbefifo_poll_timer, hq, hc]
    repeat' split
    all_goals intro h
    all_goals
      simp_all [TickLog.quiet, Function.update_same, writeback_xfrs,
        poll_out_xfrs, sbefifo_xfr_clear_wd, sbefifo_xfr_set_rp,
        sbefifo_xfr_wdt, sbefifo_xfr_done, cancel_overlay_rp_eq]


set_option maxHeartbeats 1000000 in
theorem poll_head_raise_post {σ : Type} (B : FsiBackend σ)
    (fuel now : Nat) (d : SbefifoDev) (s : σ) (xid : Nat)
    (rest : List Nat) (hq : d.xfrq = xid :: rest)
    (hB : ∀ (s2 : σ) (w : Nat) (e : Int),
      B.outw_eot_raise s2 w = .error e → e ≠ 0)
    (h : (sbefifo_poll_timer B fuel now d s).2.2.raises = 1) :
    (((sbefifo_poll_timer B fuel now d s).1.xfrs xid).respPending = true ∧
      ((sbefifo_poll_timer B fuel now d s).1.xfrs xid).writeDone =
        false) ∨
      ((sbefifo_poll_timer B fuel now d s).1.rc ≠ 0 ∧
        (sbefifo_poll_timer B fuel now d s).1.xfrq = []) := by
  by_cases hc : (sbefifo_cancel_overlay (d.xfrs xid)).writeDone = true
  · revert h
    rcases hcx : (sbefifo_cancel_overlay (d.xfrs xid)).cancel with _ | _
    all_goals
      simp only [sbefifo_poll_timer, hq, hc, hcx, Bool.false_eq_true,
        if_true, if_false]
    all_goals repeat' split
    all_goals intro h
    all_goals
      first
      | (rename_i e heq
         have he := hB _ _ _ heq
         right
         simp only [sbefifo_poll_out, if_pos he]
         refine ⟨?_, ?_⟩ <;> first | trivial | rfl | simpa using he)
      | (left
         simp_all [TickLog.quiet, Function.update_same, writeback_xfrs,
           poll_out_xfrs, sbefifo_xfr_clear_wd, sbefifo_xfr_set_rp,
           sbefifo_xfr_wdt, sbefifo_xfr_done]
         done)
      | (simp_all [TickLog.quiet, Function.update_same, writeback_xfrs,
          poll_out_xfrs, sbefifo_xfr_clear_wd, sbefifo_xfr_set_rp,
          sbefifo_xfr_wdt, sbefifo_xfr_done]
         done)
  · exfalso
    revert h
    simp only [sbefifo_poll_timer, hq, hc]
    repeat' split
    all_goals intro h
    all_goals simp_all [TickLog.quiet]

theorem poll_head_postraise {σ : Type} (B : FsiBackend σ)
    (fuel now : Nat) (d : SbefifoDev) (s : σ) (xid : Nat)
    (rest : List Nat) (hq : d.xfrq = xid :: rest)
    (hrp : (d.xfrs xid).respPending = true)
    (hwd : (d.xfrs xid).writeDone = false) :
    (sbefifo_poll_timer B fuel now d s).2.2.raises = 0 ∧
      ((sbefifo_poll_timer B fuel now d s).1.xfrs xid).respPending =
        true ∧
      ((sbefifo_poll_timer B fuel now d s).1.xfrs xid).writeDone =
        false := by
  have hx1 : sbefifo_cancel_overlay (d.xfrs xid) = d.xfrs xid :=
    cancel_overlay_rp _ hrp
  simp only [sbefifo_poll_timer, hq, hx1, hwd]
  repeat' split
  all_goals
    simp_all [TickLog.quiet, Function.update_same, writeback_xfrs,
      poll_out_xfrs, sbefifo_xfr_clear_wd, sbefifo_xfr_set_rp,
      sbefifo_xfr_wdt, sbefifo_xfr_done]

theorem poll_head_wd_src {σ : Type} (B : FsiBackend σ) (fuel now : Nat)
    (d : SbefifoDev) (s : σ) (xid : Nat) (rest : List Nat)
    (hq : d.xfrq = xid :: rest)
    (h : ((sbefifo_poll_timer B fuel now d s).1.xfrs xid).writeDone =
      true) :
    (sbefifo_cancel_overlay (d.xfrs xid)).writeDone = true := by
  by_cases hc : (sbefifo_cancel_overlay (d.xfrs xid)).writeDone = true
  · exact hc
  · exfalso
    revert h
    simp only [sbefifo_poll_timer, hq, hc]
    repeat' split
    all_goals intro h
    all_goals
      simp_all [TickLog.quiet, Function.update_same, writeback_xfrs,
        poll_out_xfrs, sbefifo_xfr_clear_wd, sbefifo_xfr_set_rp,
        sbefifo_xfr_wdt, sbefifo_xfr_done]

theorem poll_head_cancel_eq {σ : Type} (B : FsiBackend σ)
    (fuel now : Nat) (d : SbefifoDev) (s : σ) (xid : Nat)
    (rest : List Nat) (hq : d.xfrq = xid :: rest) :
    ((sbefifo_poll_timer B fuel now d s).1.xfrs xid).cancel =
      (d.xfrs xid).cancel := by
  simp only [sbefifo_poll_timer, hq]
  repeat' split
  all_goals
    simp_all [TickLog.quiet, Function.update_same, writeback_xfrs,
      poll_out_xfrs, sbefifo_xfr_clear_wd, sbefifo_xfr_set_rp,
      sbefifo_xfr_wdt, sbefifo_xfr_done, cancel_overlay_cancel_eq]

theorem poll_nil {σ : Type} (B : FsiBackend σ) (fuel now : Nat)
    (d : SbefifoDev) (s : σ) (hq : d.xfrq = []) :
    sbefifo_poll_timer B fuel now d s =
      ({ d with timerArmed := false }, s, TickLog.quiet) := by
  simp only [sbefifo_poll_timer, hq]

theorem xfrInv_wd_step {σ : Type} (B : FsiBackend σ) (xid : Nat)
    (d : SbefifoDev) (s : σ) (r : Nat)
    (hInv : XfrInv xid d r false false) :
    XfrInv xid (runXfrEv B xid .ev_writer_done (d, s, r)).1
      (runXfrEv B xid .ev_writer_done (d, s, r)).2.2 true false := by
  obtain ⟨h1, h2, h3, h4, h5, h6, h7⟩ := hInv
  simp only [runXfrEv, XfrInv, Function.update_same]
  refine ⟨h1, ?_, ?_, ?_, ?_, ?_, h7⟩
  · intro hrp; exact h2 hrp
  · intro hr
    rcases h3 hr with ⟨hrp, _⟩ | hr2
    · rcases h4 hrp with h | h <;> simp at h
    · simp [hr2]
  · intro _; simp
  · intro _; simp
  · intro hc; exact h6 hc

theorem xfrInv_cancel_step {σ : Type} (B : FsiBackend σ) (xid : Nat)
    (d : SbefifoDev) (s : σ) (r : Nat) (wdSeen seenC : Bool)
    (hInv : XfrInv xid d r wdSeen seenC) :
    XfrInv xid (runXfrEv B xid .ev_cancel (d, s, r)).1
      (runXfrEv B xid .ev_cancel (d, s, r)).2.2 wdSeen true := by
  obtain ⟨h1, h2, h3, h4, h5, h6, h7⟩ := hInv
  simp only [runXfrEv, XfrInv, Function.update_same]
  refine ⟨h1, ?_, ?_, ?_, ?_, ?_, h7⟩
  · intro hrp; exact h2 hrp
  · intro hr
    rcases h3 hr with ⟨hrp, hwd⟩ | hr2
    · simp [hrp, hwd]
    · simp [hr2]
  · intro _; simp
  · intro _; simp
  · intro _; simp

set_option maxHeartbeats 1000000 in
theorem xfrInv_tick_step {σ : Type} (B : FsiBackend σ)
    (xid fuel now : Nat) (d : SbefifoDev) (s : σ) (r : Nat)
    (wdSeen seenC : Bool)
    (hB : ∀ (s2 : σ) (w : Nat) (e : Int),
      B.outw_eot_raise s2 w = .error e → e ≠ 0)
    (hInv : XfrInv xid d r wdSeen seenC) :
    XfrInv xid (runXfrEv B xid (.ev_tick fuel now) (d, s, r)).1
      (runXfrEv B xid (.ev_tick fuel now) (d, s, r)).2.2 wdSeen seenC := by
  obtain ⟨h1, h2, h3, h4, h5, h6, h7⟩ := hInv
  simp only [runXfrEv]
  rcases hq : d.xfrq with _ | ⟨x0, rest⟩
  · rw [poll_nil B fuel now d s hq]
    simp only [XfrInv, TickLog.quiet]
    refine ⟨h1, h2, ?_, h4, h5, h6, h7⟩
    intro hr
    simp at hr
    rcases h3 hr with ⟨hrp, hwd⟩ | hr2
    · exact Or.inl ⟨hrp, hwd⟩
    · exact Or.inr hr2
  · by_cases hx : xid = x0
    · subst hx
      have hserv :
          (sbefifo_poll_timer B fuel now d s).2.2.serviced = some xid := by
        rw [poll_serviced_head, hq]; rfl
      have hrle := poll_raises_le B fuel now d s
      rcases Nat.le_one_iff_eq_zero_or_eq_one.mp hrle with h0 | h1t
      · simp only [XfrInv, hserv, if_pos rfl, h0, Nat.add_zero]
        refine ⟨h1, ?_, ?_, ?_, ?_, ?_,
          poll_rc_queue B fuel now d s h7⟩
        · intro hrp
          rcases poll_head_rp_src B fuel now d s xid rest hq hrp with
            h | h
          · exact h2 h
          · rw [h0] at h; exact absurd h (by simp)
        · intro hr
          rcases h3 hr with ⟨hrp, hwd⟩ | ⟨_, hq2⟩
          · have hp :=
              poll_head_postraise B fuel now d s xid rest hq hrp hwd
            exact Or.inl ⟨hp.2.1, hp.2.2⟩
          · rw [hq] at hq2; exact absurd hq2 (List.cons_ne_nil _ _)
        · intro hrp
          rcases poll_head_rp_src B fuel now d s xid rest hq hrp with
            h | h
          · exact h4 h
          · rw [h0] at h; exact absurd h (by simp)
        · intro hwd
          rcases cancel_overlay_wd _
              (poll_head_wd_src B fuel now d s xid rest hq hwd) with
            h | h
          · exact h5 h
          · exact Or.inr (h6 h)
        · intro hc
          rw [poll_head_cancel_eq B fuel now d s xid rest hq] at hc
          exact h6 hc
      · have hr0 : r = 0 := by
          by_contra hne
          have hr1 : r = 1 := by omega
          rcases h3 hr1 with ⟨hrp, hwd⟩ | ⟨_, hq2⟩
          · have hp :=
              poll_head_postraise B fuel now d s xid rest hq hrp hwd
            rw [h1t] at hp
            exact absurd hp.1 one_ne_zero
          · rw [hq] at hq2; exact absurd hq2 (List.cons_ne_nil _ _)
        subst hr0
        simp only [XfrInv, hserv, if_pos rfl, h1t, Nat.zero_add]
        refine ⟨le_refl 1, ?_, ?_, ?_, ?_, ?_,
          poll_rc_queue B fuel now d s h7⟩
        · intro _; rfl
        · intro _
          exact poll_head_raise_post B fuel now d s xid rest hq hB h1t
        · intro _
          rcases cancel_overlay_wd _
              (poll_head_raise_wd B fuel now d s xid rest hq h1t) with
            h | h
          · exact h5 h
          · exact Or.inr (h6 h)
        · intro hwd
          rcases cancel_overlay_wd _
              (poll_head_wd_src B fuel now d s xid rest hq hwd) with
            h | h
          · exact h5 h
          · exact Or.inr (h6 h)
        · intro hc
          rw [poll_head_cancel_eq B fuel now d s xid rest hq] at hc
          exact h6 hc
    · have hserv :
          (sbefifo_poll_timer B fuel now d s).2.2.serviced = some x0 := by
        rw [poll_serviced_head, hq]; rfl
      have hne : ¬ ((sbefifo_poll_timer B fuel now d s).2.2.serviced =
          some xid) := by
        rw [hserv]
        intro h
        exact hx (Option.some.injEq _ _ ▸ h).symm
      have hflags := poll_other_flags B fuel now d s xid (by
        rw [hq]
        intro h
        simp only [List.head?] at h
        exact hx ((Option.some.injEq _ _).mp h).symm)
      simp only [XfrInv, if_neg hne, Nat.add_zero, hflags]
      refine ⟨h1, h2, ?_, h4, h5, h6,
        poll_rc_queue B fuel now d s h7⟩
      intro hr
      rcases h3 hr with ⟨hrp, hwd⟩ | ⟨_, hq2⟩
      · exact Or.inl ⟨hrp, hwd⟩
      · rw [hq] at hq2; exact absurd hq2 (List.cons_ne_nil _ _)

theorem xfrInv_trace {σ : Type} (B : FsiBackend σ) (xid : Nat)
    (hB : ∀ (s2 : σ) (w : Nat) (e : Int),
      B.outw_eot_raise s2 w = .error e → e ≠ 0) :
    ∀ (tr : List XfrEv) (d : SbefifoDev) (s : σ) (r : Nat)
      (wdSeen seenC : Bool),
      XfrTraceWF wdSeen seenC tr → XfrInv xid d r wdSeen seenC →
      ∃ w c, XfrInv xid (runXfrTrace B xid tr (d, s, r)).1
        (runXfrTrace B xid tr (d, s, r)).2.2 w c := by
  intro tr
  induction tr with
  | nil =>
    intro d s r wdSeen seenC _ hInv
    exact ⟨wdSeen, seenC, hInv⟩
  | cons ev tr ih =>
    intro d s r wdSeen seenC hwf hInv
    cases ev with
    | ev_writer_done =>
      simp only [XfrTraceWF] at hwf
      obtain ⟨hw, hs, hwf2⟩ := hwf
      subst hw; subst hs
      simp only [runXfrTrace]
      exact ih _ _ _ true false hwf2 (xfrInv_wd_step B xid d s r hInv)
    | ev_cancel =>
      simp only [XfrTraceWF] at hwf
      simp only [runXfrTrace]
      exact ih _ _ _ wdSeen true hwf
        (xfrInv_cancel_step B xid d s r wdSeen seenC hInv)
    | ev_tick fuel now =>
      simp only [XfrTraceWF] at hwf
      simp only [runXfrTrace]
      exact ih _ _ _ wdSeen seenC hwf
        (xfrInv_tick_step B xid fuel now d s r wdSeen seenC hB hInv)

/-- ### Claim C10
For every transfer, the poll worker writes the EOT magic to the raise
register at most once over the transfer's whole lifetime — across all
poll ticks and also when the transfer is cancelled mid-flight; once the
transfer is response-pending the raise has happened (exactly once);
immediately after the raising tick the transfer is response-pending with
write-done clear, unless that very register write failed and latched the
device fatal (emptying the queue, so the transfer is never serviced
again); and the cancel overlay never re-arms write-done on a transfer
that is already response-pending. -/
theorem c10_eot_once {σ : Type} (B : FsiBackend σ)
    (hB : ∀ (s2 : σ) (w : Nat) (e : Int),
      B.outw_eot_raise s2 w = .error e → e ≠ 0) :
    (∀ x : SbefifoXfr, x.respPending = true →
      sbefifo_cancel_overlay x = x) ∧
    (∀ (xid : Nat) (tr : List XfrEv) (d0 : SbefifoDev) (s0 : σ),
      XfrTraceWF false false tr →
      (d0.xfrs xid).writeDone = false →
      (d0.xfrs xid).respPending = false →
      (d0.xfrs xid).cancel = false →
      (d0.rc ≠ 0 → d0.xfrq = []) →
      (runXfrTrace B xid tr (d0, s0, 0)).2.2 ≤ 1 ∧
        (((runXfrTrace B xid tr (d0, s0, 0)).1.xfrs xid).respPending =
            true →
          (runXfrTrace B xid tr (d0, s0, 0)).2.2 = 1)) ∧
    (∀ (fuel now : Nat) (d : SbefifoDev) (s : σ) (xid : Nat)
      (rest : List Nat),
      d.xfrq = xid :: rest →
      (sbefifo_poll_timer B fuel now d s).2.2.raises = 1 →
      (((sbefifo_poll_timer B fuel now d s).1.xfrs xid).respPending =
          true ∧
        ((sbefifo_poll_timer B fuel now d s).1.xfrs xid).writeDone =
          false) ∨
      ((sbefifo_poll_timer B fuel now d s).1.rc ≠ 0 ∧
        (sbefifo_poll_timer B fuel now d s).1.xfrq = [])) := by
  refine ⟨cancel_overlay_rp, ?_, ?_⟩
  · intro xid tr d0 s0 hwf hwd hrp hcl hrc
    have hInv0 : XfrInv xid d0 0 false false := by
      refine ⟨by omega, ?_, ?_, ?_, ?_, ?_, hrc⟩
      · intro h; rw [hrp] at h; exact absurd h (by simp)
      · intro h; exact absurd h (by simp)
      · intro h; rw [hrp] at h; exact absurd h (by simp)
      · intro h; rw [hwd] at h; exact absurd h (by simp)
      · intro h; rw [hcl] at h; exact absurd h (by simp)
    obtain ⟨w, c, hI⟩ :=
      xfrInv_trace B xid hB tr d0 s0 0 false false hwf hInv0
    exact ⟨hI.1, hI.2.1⟩
  · intro fuel now d s xid rest hq hr
    exact poll_head_raise_post B fuel now d s xid rest hq hB hr

/-- Witness for `c10_eot_once` on the healthy loopback backend: the
transfer is created fresh on an idle device, the writer finishes, a
cancel arrives, and two poll ticks run; the raise counter stays at most
one. -/
theorem c10_eot_once_witness :
    (runXfrTrace loopBackend 0
      [XfrEv.ev_writer_done, XfrEv.ev_tick 64 0, XfrEv.ev_cancel,
        XfrEv.ev_tick 64 0]
      ({ devEmpty with xfrq := [0] }, LoopSt.mk [] false, 0)).2.2 ≤ 1 := by
  have h := c10_eot_once loopBackend (by
    intro s2 w e he
    simp [loopBackend] at he)
  exact (h.2.1 0
    [XfrEv.ev_writer_done, XfrEv.ev_tick 64 0, XfrEv.ev_cancel,
      XfrEv.ev_tick 64 0]
    { devEmpty with xfrq := [0] } (LoopSt.mk [] false)
    (by simp [XfrTraceWF]) rfl rfl rfl (by intro h; exact absurd rfl h)).1

theorem store_words_lt (ws : List Nat) :
    ∀ (g : Nat → Nat) (p q : Nat), q < p → store_words g p ws q = g q := by
  induction ws with
  | nil => intro g p q _; rfl
  | cons w ws ih =>
    intro g p q hq
    simp only [store_words]
    rw [ih _ _ _ (by omega), Function.update_noteq (by omega)]

theorem store_words_get (ws : List Nat) :
    ∀ (g : Nat → Nat) (p i : Nat), i < ws.length →
      store_words g p ws (p + i) = ws.getD i 0 := by
  induction ws with
  | nil => intro g p i h; simp at h
  | cons w ws ih =>
    intro g p i h
    match i with
    | 0 =>
      simp only [store_words, Nat.add_zero, List.getD_cons_zero]
      rw [store_words_lt _ _ _ _ (by omega), Function.update_same]
    | i + 1 =>
      simp only [store_words, List.getD_cons_succ]
      rw [show p + (i + 1) = (p + 1) + i by omega]
      exact ih _ _ _ (by simp only [List.length_cons] at h; omega)

theorem store_words_append (xs ys : List Nat) :
    ∀ (g : Nat → Nat) (p : Nat),
      store_words g p (xs ++ ys) =
        store_words (store_words g p xs) (p + xs.length) ys := by
  induction xs with
  | nil => intro g p; simp [store_words]
  | cons x xs ih =>
    intro g p
    have hc : (x :: xs) ++ ys = x :: (xs ++ ys) := rfl
    rw [hc]
    simp only [store_words]
    rw [ih, List.length_cons,
      show p + (xs.length + 1) = p + 1 + xs.length by omega]

theorem read_words_succ (f : Nat → Nat) (p k : Nat) :
    read_words f p (k + 1) = f p :: read_words f (p + 1) k := by
  simp only [read_words, List.range_succ_eq_map, List.map_cons,
    List.map_map, Nat.add_zero]
  congr 1
  apply List.map_congr_left
  intro i _
  simp only [Function.comp_apply]
  congr 1
  omega

theorem read_words_store (ws : List Nat) :
    ∀ (g : Nat → Nat) (p : Nat),
      read_words (store_words g p ws) p ws.length = ws := by
  induction ws with
  | nil => intro g p; rfl
  | cons w ws ih =>
    intro g p
    simp only [store_words, List.length_cons, read_words_succ]
    rw [store_words_lt _ _ _ _ (by omega), Function.update_same]
    congr 1
    exact ih _ _

theorem nbreadable_emptyRing (g : Nat → Nat) (p : Nat) :
    sbefifo_buf_nbreadable (emptyRing g p) = 0 := by
  simp [sbefifo_buf_nbreadable, emptyRing]

theorem nbwriteable_emptyRing (g : Nat → Nat) (p : Nat) :
    sbefifo_buf_nbwriteable (emptyRing g p) =
      (SBEFIFO_BUF_CNT - p) <<< 2 := by
  simp [sbefifo_buf_nbwriteable, emptyRing]

theorem drainRing_self (g : Nat → Nat) (m : Nat) :
    drainRing g m m = emptyRing g (m % 32) := by
  simp only [drainRing, emptyRing, SbefifoBuf.mk.injEq]
  refine ⟨trivial, ?_, trivial, trivial⟩
  by_cases h : m = 32 <;> simp [h]

theorem nbreadable_drainRing (g : Nat → Nat) (m j : Nat) (h1 : j < m)
    (hm : m ≤ 32) :
    sbefifo_buf_nbreadable (drainRing g m j) = (m - j) <<< 2 := by
  simp only [sbefifo_buf_nbreadable, drainRing, SBEFIFO_BUF_CNT, shiftl2]
  by_cases hm32 : m = 32 <;> by_cases hj0 : j = 0 <;>
    simp [hm32, hj0] <;> (try split_ifs) <;> omega

theorem readnb_drainRing (g : Nat → Nat) (m j : Nat) (h1 : j < m)
    (hm : m ≤ 32) :
    (sbefifo_buf_readnb (drainRing g m j) (1 <<< 2)).1 =
      drainRing g m (j + 1) := by
  simp only [sbefifo_buf_readnb, drainRing, SBEFIFO_BUF_CNT,
    SbefifoBuf.mk.injEq]
  refine ⟨trivial, ?_, ?_, trivial⟩
  · simp
  · have h3 : j % 32 = j := Nat.mod_eq_of_lt (by omega)
    have h2 : (1 <<< 2 : Nat) >>> 2 = 1 := by decide
    simp only [h3, h2]
    split_ifs <;> omega

theorem nbreadable_linRing (g : Nat → Nat) (ws : List Nat)
    (h : ws.length ≤ 32) :
    sbefifo_buf_nbreadable (linRing g ws) = ws.length <<< 2 := by
  simp only [linRing, sbefifo_buf_nbreadable, drainRing, SBEFIFO_BUF_CNT,
    shiftl2]
  by_cases hm32 : ws.length = 32 <;> simp [hm32] <;>
    (try split_ifs) <;> omega

theorem nbwriteable_linRing (g : Nat → Nat) (ws : List Nat)
    (h : ws.length ≤ 32) :
    sbefifo_buf_nbwriteable (linRing g ws) =
      (32 - ws.length) <<< 2 := by
  simp only [linRing, sbefifo_buf_nbwriteable, drainRing, SBEFIFO_BUF_CNT,
    shiftl2]
  by_cases hm32 : ws.length = 32 <;> simp [hm32] <;>
    (try split_ifs) <;> omega

theorem nbwriteable_drainRing_self (g : Nat → Nat) (m : Nat)
    (hm : m ≤ 32) :
    sbefifo_buf_nbwriteable (drainRing g m m) =
      (32 - m % 32) <<< 2 := by
  rw [drainRing_self]
  simp only [nbwriteable_emptyRing, SBEFIFO_BUF_CNT]

theorem readnb_linRing (g : Nat → Nat) (ws : List Nat) (h1 : ws ≠ [])
    (h : ws.length ≤ 32) :
    sbefifo_buf_readnb (linRing g ws) (ws.length <<< 2) =
      (emptyRing (store_words g 0 ws) (ws.length % 32), true) := by
  have hlen : ws.length ≠ 0 := by
    intro h0; exact h1 (List.length_eq_zero.mp h0)
  simp only [sbefifo_buf_readnb, linRing, drainRing, emptyRing, shiftl2,
    SBEFIFO_BUF_CNT, Prod.mk.injEq, SbefifoBuf.mk.injEq]
  have h2 : (4 * ws.length) >>> 2 = ws.length := shiftr2 _
  simp only [h2, Nat.zero_mod, Nat.zero_add]
  refine ⟨⟨trivial, ?_, ?_, trivial⟩, ?_⟩
  · simp [hlen]
  · by_cases h32 : ws.length = 32 <;> simp [h32] <;> omega
  · simp only [decide_eq_true_eq]
    by_cases h32 : ws.length = 32 <;> simp [h32] <;> omega

theorem store_words_append0 (xs ys : List Nat) (g : Nat → Nat) :
    store_words g 0 (xs ++ ys) =
      store_words (store_words g 0 xs) xs.length ys := by
  rw [store_words_append, Nat.zero_add]

theorem wrotenb_linRing (g : Nat → Nat) (ws c : List Nat)
    (hws : ws.length < 32) (hc : c ≠ [])
    (h : ws.length + c.length ≤ 32) :
    (sbefifo_buf_wrotenb
      { linRing g ws with
        buf := store_words (store_words g 0 ws) (ws.length % 32) c }
      (c.length <<< 2)).1 = linRing g (ws ++ c) := by
  have hcl : c.length ≠ 0 := by
    intro h0; exact hc (List.length_eq_zero.mp h0)
  have hne : ws.length ≠ 32 := by omega
  simp only [sbefifo_buf_wrotenb, linRing, drainRing, shiftl2,
    SBEFIFO_BUF_CNT, Nat.mod_eq_of_lt hws, SbefifoBuf.mk.injEq]
  have h2 : (4 * c.length) >>> 2 = c.length := shiftr2 _
  simp only [h2, Nat.zero_mod, List.length_append]
  refine ⟨?_, ?_, trivial, ?_⟩
  · rw [← store_words_append0]
  · by_cases h32 : ws.length + c.length = 32 <;> simp [h32, hne, hc]
  · by_cases h32 : ws.length + c.length = 32 <;> simp [h32] <;> omega

theorem drop_take_succ_getD (ws : List Nat) (j c : Nat)
    (h : j < ws.length) :
    (ws.drop j).take (c + 1) =
      ws.getD j 0 :: (ws.drop (j + 1)).take c := by
  rw [List.drop_eq_getElem_cons h, List.take_succ_cons]
  congr 1
  simp [List.getD_eq_getElem?_getD, List.getElem?_eq_getElem h]

theorem loop_up_sts (s : LoopSt) :
    loopBackend.inw_up_sts s = .ok (0, s) := rfl

theorem loop_writew (s : LoopSt) (w : Nat) :
    loopBackend.writew s w = .ok ⟨s.resp ++ [w], s.eotIn⟩ := rfl

theorem loop_raise (s : LoopSt) (w : Nat) :
    loopBackend.outw_eot_raise s w = .ok ⟨s.resp ++ [w], true⟩ := rfl

theorem loop_down_sts (s : LoopSt) :
    loopBackend.inw_down_sts s =
      .ok ((min s.resp.length 8) <<< 16 +
        (if s.eotIn ∧ s.resp.length ≤ 8 then 1 else 0), s) := rfl

theorem loop_readw_cons (w : Nat) (ws : List Nat) (e : Bool) :
    loopBackend.readw ⟨w :: ws, e⟩ = .ok (w, ⟨ws, e⟩) := rfl

theorem loop_ack (s : LoopSt) (w : Nat) :
    loopBackend.outw_eot_ack s w = .ok s := rfl

theorem drain_words_rt (g : Nat → Nat) (ws : List Nat)
    (hle : ws.length ≤ 32) :
    ∀ (c j : Nat) (resp : List Nat) (e : Bool),
      j + c ≤ ws.length →
      sbefifo_drain_words loopBackend c
        (drainRing (store_words g 0 ws) ws.length j) ⟨resp, e⟩ =
      .ok (drainRing (store_words g 0 ws) ws.length (j + c),
        ⟨resp ++ (ws.drop j).take c, e⟩) := by
  intro c
  induction c with
  | zero =>
    intro j resp e _
    simp [sbefifo_drain_words]
  | succ c ih =>
    intro j resp e hjc
    have hj : j < ws.length := by omega
    have hbuf : (drainRing (store_words g 0 ws) ws.length j).buf
        ((drainRing (store_words g 0 ws) ws.length j).rpos) =
        ws.getD j 0 := by
      show store_words g 0 ws (j % 32) = ws.getD j 0
      rw [Nat.mod_eq_of_lt (by omega)]
      simpa using store_words_get ws g 0 j hj
    simp only [sbefifo_drain_words, hbuf, loop_writew]
    simp only [readnb_drainRing _ _ _ hj hle]
    rw [ih (j + 1) (resp ++ [ws.getD j 0]) e (by omega),
      show j + 1 + c = j + (c + 1) by omega,
      List.append_assoc, drop_take_succ_getD _ _ _ hj]
    rfl
theorem drain_loop_rt (g : Nat → Nat) (ws : List Nat)
    (hle : ws.length ≤ 32) :
    ∀ (fuel j : Nat) (resp : List Nat) (e : Bool) (r : Nat),
      j ≤ ws.length → (ws.length - j + 7) / 8 + 1 ≤ fuel →
      ∃ r2,
        sbefifo_drain_loop loopBackend fuel
          (drainRing (store_words g 0 ws) ws.length j) ⟨resp, e⟩ r =
        .drained (drainRing (store_words g 0 ws) ws.length ws.length)
          ⟨resp ++ ws.drop j, e⟩ r2 := by
  intro fuel
  induction fuel with
  | zero => intro j resp e r _ hf; omega
  | succ fuel ih =>
    intro j resp e r hj hf
    by_cases hend : j = ws.length
    · subst hend
      refine ⟨r, ?_⟩
      rw [drainRing_self]
      simp [sbefifo_drain_loop, nbreadable_emptyRing, List.drop_length]
    · have hjlt : j < ws.length := by omega
      simp only [sbefifo_drain_loop, nbreadable_drainRing _ _ _ hjlt hle,
        loop_up_sts]
      have hne : (ws.length - j) <<< 2 ≠ 0 := by
        simp only [shiftl2]; omega
      rw [if_neg hne]
      have h8 : sbefifo_dev_nwwriteable 0 = 8 := by decide
      have hsh : ((ws.length - j) <<< 2) >>> 2 = ws.length - j := by
        simp only [shiftl2, shiftr2]
      simp only [h8, hsh]
      rw [if_neg (by decide : ¬ (8 : Nat) = 0)]
      simp only [drain_words_rt g ws hle (min 8 (ws.length - j)) j resp e
        (by omega)]
      obtain ⟨r2, hr2⟩ := ih (j + min 8 (ws.length - j))
        (resp ++ (ws.drop j).take (min 8 (ws.length - j))) e (r + 1)
        (by omega) (by omega)
      refine ⟨r2, ?_⟩
      have hlist : (resp ++ (ws.drop j).take (min 8 (ws.length - j))) ++
          ws.drop (j + min 8 (ws.length - j)) = resp ++ ws.drop j := by
        rw [List.append_assoc]
        congr 1
        rw [show ws.drop (j + min 8 (ws.length - j)) =
            (ws.drop j).drop (min 8 (ws.length - j)) by
          rw [List.drop_drop]; (try congr 1); (try omega)]
        exact List.take_append_drop _ _
      rw [hlist] at hr2
      exact hr2
theorem nwreadable_status (k b : Nat) (hk : k ≤ 8) (hb : b ≤ 1) :
    sbefifo_dev_nwreadable (k <<< 16 + b) = k := by
  interval_cases k <;> interval_cases b <;> decide

theorem eotmask_status (k b : Nat) (hk : k ≤ 8) (hb : b ≤ 1) :
    (k <<< 16 + b) &&& EOT_MASK = b := by
  interval_cases k <;> interval_cases b <;> decide

theorem store_words_single (f : Nat → Nat) (p w : Nat) :
    store_words f p [w] = Function.update f p w := rfl

theorem fill_words_rt (g : Nat → Nat) :
    ∀ (c : Nat) (acc rs : List Nat) (e : Bool),
      acc.length + c ≤ 32 → c ≤ rs.length →
      sbefifo_fill_words loopBackend false c (linRing g acc) ⟨rs, e⟩ =
      .ok (linRing g (acc ++ rs.take c), ⟨rs.drop c, e⟩) := by
  intro c
  induction c with
  | zero =>
    intro acc rs e _ _
    simp [sbefifo_fill_words]
  | succ c ih =>
    intro acc rs e h1 h2
    rcases rs with _ | ⟨w, rs⟩
    · simp at h2
    · have hacc : acc.length < 32 := by omega
      simp only [sbefifo_fill_words, loop_readw_cons, Bool.false_eq_true,
        if_false]
      have hupd : { linRing g acc with
          buf := Function.update (linRing g acc).buf
            (linRing g acc).wpos w } =
          { linRing g acc with
            buf := store_words (store_words g 0 acc)
              (acc.length % 32) [w] } := by
        simp only [linRing, drainRing, store_words_single]
      rw [hupd]
      have hw := wrotenb_linRing g acc [w] hacc (by simp)
        (by simp only [List.length_singleton]; omega)
      simp only [List.length_singleton] at hw
      rw [show (1 : Nat) <<< 2 = 4 by decide,
        show (4 : Nat) = 1 <<< 2 by decide] at *
      rw [hw]
      have hlen1 : (acc ++ [w]).length + c ≤ 32 := by
        simp only [List.length_append, List.length_singleton]
        omega
      have hlen2 : c ≤ rs.length := by
        simp only [List.length_cons] at h2
        omega
      rw [ih (acc ++ [w]) rs e hlen1 hlen2]
      simp [List.take_succ_cons, List.drop_succ_cons, List.append_assoc]

set_option maxHeartbeats 1000000 in
theorem fill_loop_rt (g : Nat → Nat) (now : Nat) :
    ∀ (fuel : Nat) (acc R : List Nat),
      8 ∣ acc.length → acc.length ≤ 32 →
      (32 - acc.length) / 8 + 2 ≤ fuel →
      sbefifo_fill_loop loopBackend now false fuel (linRing g acc)
        ⟨R ++ [SBEFIFO_EOT_MAGIC], true⟩ 0 =
      if acc.length + R.length ≤ 31 then
        .completed (linRing g (acc ++ R)) ⟨[], true⟩ 0
      else
        .spaceFull (linRing g (acc ++ R.take (32 - acc.length)))
          ⟨R.drop (32 - acc.length) ++ [SBEFIFO_EOT_MAGIC], true⟩ 0 := by
  intro fuel
  induction fuel with
  | zero => intro acc R _ _ hf; omega
  | succ fuel ih =>
    intro acc R hdvd hle hf
    simp only [sbefifo_fill_loop]
    by_cases h32 : acc.length = 32
    · rw [nbwriteable_linRing g acc (by omega)]
      rw [show ((32 - acc.length) <<< 2 : Nat) = 0 by rw [h32]; decide]
      rw [if_pos rfl,
        if_neg (by omega : ¬ (acc.length + R.length ≤ 31)),
        show 32 - acc.length = 0 by omega]
      simp
    · obtain ⟨t, ht⟩ := hdvd
      have hacc : acc.length ≤ 24 := by omega
      rw [nbwriteable_linRing g acc (by omega)]
      rw [if_neg (by simp only [shiftl2]; omega :
        ¬ ((32 - acc.length) <<< 2 = 0))]
      have hshr : ((32 - acc.length) <<< 2) >>> 2 = 32 - acc.length := by
        simp only [shiftl2, shiftr2]
      have hrlen : (R ++ [SBEFIFO_EOT_MAGIC]).length = R.length + 1 := by
        simp
      by_cases hflag : R.length ≤ 7
      · have hle8 := eq_true (show R.length + 1 ≤ 8 by omega)
        have hminL : min (R.length + 1) 8 = R.length + 1 := by omega
        have hnw := nwreadable_status (R.length + 1) 1 (by omega)
          (by omega)
        have hem := eotmask_status (R.length + 1) 1 (by omega) (by omega)
        have hc1 := eq_false (by omega : ¬ (R.length + 1 = 0))
        have hmin2 : min (R.length + 1) (32 - acc.length) =
            R.length + 1 := by omega
        have hack : sbefifo_ack_eot loopBackend ⟨[SBEFIFO_EOT_MAGIC],
            true⟩ = .ok ⟨[], true⟩ := rfl
        simp only [loop_down_sts, hrlen, true_and, hle8, if_true, hminL,
          hnw, hc1, if_false, hem,
          show ((1 : Nat) != 0) = true by decide, hshr, hmin2,
          Nat.add_sub_cancel,
          fill_words_rt g R.length acc (R ++ [SBEFIFO_EOT_MAGIC]) true
            (by omega) (by simp),
          List.take_left, List.drop_left, hack]
        rw [if_pos (by omega : acc.length + R.length ≤ 31)]
      · have hgt8 := eq_false (show ¬ (R.length + 1 ≤ 8) by omega)
        have hminL : min (R.length + 1) 8 = 8 := by omega
        have hnw := nwreadable_status 8 0 (by omega) (by omega)
        have hem := eotmask_status 8 0 (by omega) (by omega)
        have hc1 := eq_false (by decide : ¬ ((8 : Nat) = 0))
        have hmin2 : min 8 (32 - acc.length) = 8 := by omega
        have htk : (R ++ [SBEFIFO_EOT_MAGIC]).take 8 = R.take 8 :=
          List.take_append_of_le_length (by omega)
        have hdp : (R ++ [SBEFIFO_EOT_MAGIC]).drop 8 =
            R.drop 8 ++ [SBEFIFO_EOT_MAGIC] :=
          List.drop_append_of_le_length (by omega)
        simp only [loop_down_sts, hrlen, true_and, hgt8, if_false, hminL,
          hnw, hc1, hem, show ((0 : Nat) != 0) = false by decide,
          Bool.false_eq_true, hshr, hmin2,
          fill_words_rt g 8 acc (R ++ [SBEFIFO_EOT_MAGIC]) true
            (by omega) (by simp; omega),
          htk, hdp]
        have hlacc : (acc ++ R.take 8).length = acc.length + 8 := by
          simp only [List.length_append, List.length_take]
          omega
        rw [ih (acc ++ R.take 8) (R.drop 8)
          (by rw [hlacc]; exact ⟨t + 1, by omega⟩) (by omega)
          (by rw [hlacc]; omega)]
        rw [hlacc]
        have hldrop : (R.drop 8).length = R.length - 8 := by simp
        rw [hldrop]
        by_cases hcond : acc.length + R.length ≤ 31
        · rw [if_pos (by omega : acc.length + 8 + (R.length - 8) ≤ 31),
            if_pos hcond, List.append_assoc, List.take_append_drop]
        · rw [if_neg (by omega :
              ¬ (acc.length + 8 + (R.length - 8) ≤ 31)),
            if_neg hcond]
          have he1 : (acc ++ R.take 8) ++
              (R.drop 8).take (32 - (acc.length + 8)) =
              acc ++ R.take (32 - acc.length) := by
            rw [List.append_assoc]
            congr 1
            rw [show 32 - acc.length = 8 + (32 - (acc.length + 8)) by
              omega, List.take_add]
          have he2 : (R.drop 8).drop (32 - (acc.length + 8)) =
              R.drop (32 - acc.length) := by
            rw [List.drop_drop]
            congr 1
            omega
          rw [he1, he2]
theorem cancel_overlay_new :
    sbefifo_cancel_overlay (sbefifo_xfr_new 0) = sbefifo_xfr_new 0 := by
  simp [sbefifo_cancel_overlay, sbefifo_xfr_new]

set_option maxHeartbeats 1000000 in
theorem tick_drain_rt (gw : Nat → Nat) (ws : List Nat) (rb : SbefifoBuf)
    (resp : List Nat) (e : Bool) (ta : Bool) (tf now : Nat)
    (h1 : ws ≠ []) (h2 : ws.length ≤ 32) (htf : 6 ≤ tf) :
    ∃ L, sbefifo_poll_timer loopBackend tf now
      (rtDev (sbefifo_xfr_new 0) (rtCl rb (linRing gw ws) [0]) [0] ta)
      ⟨resp, e⟩ =
    (rtDev (sbefifo_xfr_new 0)
      (rtCl rb (emptyRing (store_words gw 0 ws) (ws.length % 32)) [0])
      [0] false, ⟨resp ++ ws, e⟩, L) := by
  obtain ⟨r2, hdr⟩ := drain_loop_rt gw ws h2 tf 0 resp e 0 (by omega)
    (by omega)
  refine ⟨TickLog.mk (some 0) 0 false 0 r2 true false, ?_⟩
  simp only [sbefifo_poll_timer, rtDev, rtCl, Function.update_same,
    cancel_overlay_new, Function.update_idem,
    show (sbefifo_xfr_new 0).cancel = false from rfl,
    show (sbefifo_xfr_new 0).owner = 0 from rfl,
    show (sbefifo_xfr_new 0).writeDone = false from rfl,
    show (sbefifo_xfr_new 0).respPending = false from rfl,
    Bool.false_eq_true, if_false, linRing]
  simp only [hdr, List.drop_zero, drainRing_self, sbefifo_writeback,
    sbefifo_poll_out, Function.update_same, Function.update_idem]
  simp

theorem linRing_nil (g : Nat → Nat) : linRing g [] = emptyRing g 0 := by
  simp [linRing, drainRing, emptyRing, store_words]

theorem drain_loop_empty {σ : Type} (B : FsiBackend σ) (fuel : Nat)
    (g : Nat → Nat) (p : Nat) (s : σ) (r : Nat) (hf : 1 ≤ fuel) :
    sbefifo_drain_loop B fuel (emptyRing g p) s r =
      .drained (emptyRing g p) s r := by
  match fuel, hf with
  | f + 1, _ => simp [sbefifo_drain_loop, nbreadable_emptyRing]

theorem cancel_overlay_wdset :
    sbefifo_cancel_overlay { sbefifo_xfr_new 0 with writeDone := true } =
      { sbefifo_xfr_new 0 with writeDone := true } := by
  simp [sbefifo_cancel_overlay, sbefifo_xfr_new]

theorem cancel_overlay_rpset :
    sbefifo_cancel_overlay { sbefifo_xfr_new 0 with respPending := true } =
      { sbefifo_xfr_new 0 with respPending := true } := by
  simp [sbefifo_cancel_overlay, sbefifo_xfr_new]

set_option maxHeartbeats 1000000 in
theorem tick_p2_wd_small (gr gw : Nat → Nat) (ws resp0 : List Nat)
    (ta : Bool) (tf now : Nat) (h1 : ws ≠ []) (h2 : ws.length ≤ 32)
    (hsm : (resp0 ++ ws).length ≤ 31) (htf : 6 ≤ tf) :
    ∃ L, sbefifo_poll_timer loopBackend tf now
      (rtDev { sbefifo_xfr_new 0 with writeDone := true }
        (rtCl (emptyRing gr 0) (linRing gw ws) [0]) [0] ta)
      ⟨resp0, false⟩ =
    (rtDev { sbefifo_xfr_new 0 with
        respPending := true, complete := true }
      (rtCl (linRing gr (resp0 ++ ws))
        (emptyRing (store_words gw 0 ws) (ws.length % 32)) [0]) [] false,
      ⟨[], true⟩, L) := by
  obtain ⟨r2, hdr⟩ := drain_loop_rt gw ws h2 tf 0 resp0 false 0
    (by omega) (by omega)
  have hfl := fill_loop_rt gr now tf [] (resp0 ++ ws) (by simp)
    (by simp) (by simp; omega)
  rw [if_pos (by simpa using hsm)] at hfl
  refine ⟨TickLog.mk (some 0) 0 true 1 r2 true false, ?_⟩
  simp only [sbefifo_poll_timer, rtDev, rtCl, Function.update_same,
    cancel_overlay_wdset, Function.update_idem,
    show ({ sbefifo_xfr_new 0 with writeDone := true }).cancel = false
      from rfl,
    show ({ sbefifo_xfr_new 0 with writeDone := true }).owner = 0
      from rfl,
    show ({ sbefifo_xfr_new 0 with writeDone := true }).writeDone = true
      from rfl,
    Bool.false_eq_true, if_false, if_true, linRing]
  simp only [hdr, List.drop_zero,
    show sbefifo_xfr_clear_wd { sbefifo_xfr_new 0 with
      writeDone := true } = sbefifo_xfr_new 0 from rfl,
    loop_raise,
    show sbefifo_xfr_set_rp (sbefifo_xfr_new 0) =
      { sbefifo_xfr_new 0 with respPending := true } from rfl,
    show ({ sbefifo_xfr_new 0 with respPending := true }).respPending =
      true from rfl,
    show ({ sbefifo_xfr_new 0 with respPending := true }).cancel = false
      from rfl,
    show ({ sbefifo_xfr_new 0 with
      respPending := true }).wait_data_timeout = 0 from rfl,
    show ({ sbefifo_xfr_new 0 with respPending := true }).owner = 0
      from rfl,
    Function.update_idem, not_true, Bool.false_eq_true, if_false]
  rw [show linRing gr [] = emptyRing gr 0 from linRing_nil gr] at hfl
  simp only [hfl,
    show sbefifo_xfr_done { sbefifo_xfr_new 0 with respPending := true }
      0 = { sbefifo_xfr_new 0 with
        respPending := true, complete := true } from rfl,
    sbefifo_writeback, sbefifo_poll_out, sbefifo_next_xfr,
    Function.update_same, Function.update_idem, drainRing_self]
  simp [linRing, List.length_append]

set_option maxHeartbeats 1000000 in
theorem tick_p2_wd_big (gr gw : Nat → Nat) (ws resp0 : List Nat)
    (ta : Bool) (tf now : Nat) (h1 : ws ≠ []) (h2 : ws.length ≤ 32)
    (hsm : 32 ≤ (resp0 ++ ws).length) (htf : 6 ≤ tf) :
    ∃ L, sbefifo_poll_timer loopBackend tf now
      (rtDev { sbefifo_xfr_new 0 with writeDone := true }
        (rtCl (emptyRing gr 0) (linRing gw ws) [0]) [0] ta)
      ⟨resp0, false⟩ =
    (rtDev { sbefifo_xfr_new 0 with respPending := true }
      (rtCl (linRing gr ((resp0 ++ ws).take 32))
        (emptyRing (store_words gw 0 ws) (ws.length % 32)) [0]) [0] false,
      ⟨(resp0 ++ ws).drop 32 ++ [SBEFIFO_EOT_MAGIC], true⟩, L) := by
  obtain ⟨r2, hdr⟩ := drain_loop_rt gw ws h2 tf 0 resp0 false 0
    (by omega) (by omega)
  have hfl := fill_loop_rt gr now tf [] (resp0 ++ ws) (by simp)
    (by simp) (by simp; omega)
  rw [if_neg (by simp only [List.length_nil, Nat.zero_add]; omega)]
    at hfl
  refine ⟨TickLog.mk (some 0) 0 false 1 r2 true false, ?_⟩
  simp only [sbefifo_poll_timer, rtDev, rtCl, Function.update_same,
    cancel_overlay_wdset, Function.update_idem,
    show ({ sbefifo_xfr_new 0 with writeDone := true }).cancel = false
      from rfl,
    show ({ sbefifo_xfr_new 0 with writeDone := true }).owner = 0
      from rfl,
    show ({ sbefifo_xfr_new 0 with writeDone := true }).writeDone = true
      from rfl,
    Bool.false_eq_true, if_false, if_true, linRing]
  simp only [hdr, List.drop_zero,
    show sbefifo_xfr_clear_wd { sbefifo_xfr_new 0 with
      writeDone := true } = sbefifo_xfr_new 0 from rfl,
    loop_raise,
    show sbefifo_xfr_set_rp (sbefifo_xfr_new 0) =
      { sbefifo_xfr_new 0 with respPending := true } from rfl,
    show ({ sbefifo_xfr_new 0 with respPending := true }).respPending =
      true from rfl,
    show ({ sbefifo_xfr_new 0 with respPending := true }).cancel = false
      from rfl,
    show ({ sbefifo_xfr_new 0 with
      respPending := true }).wait_data_timeout = 0 from rfl,
    show ({ sbefifo_xfr_new 0 with respPending := true }).owner = 0
      from rfl,
    Function.update_idem, not_true, Bool.false_eq_true, if_false]
  rw [show linRing gr [] = emptyRing gr 0 from linRing_nil gr] at hfl
  simp only [hfl,
    show sbefifo_xfr_wdt { sbefifo_xfr_new 0 with respPending := true }
      0 = { sbefifo_xfr_new 0 with respPending := true } from rfl,
    sbefifo_writeback, sbefifo_poll_out,
    Function.update_same, Function.update_idem, drainRing_self]
  simp [linRing, List.length_append]

set_option maxHeartbeats 1000000 in
theorem tick_p2_rp_small (gr gw : Nat → Nat) (D : List Nat) (p : Nat)
    (ta : Bool) (tf now : Nat) (hsm : D.length ≤ 31) (htf : 6 ≤ tf) :
    ∃ L, sbefifo_poll_timer loopBackend tf now
      (rtDev { sbefifo_xfr_new 0 with respPending := true }
        (rtCl (emptyRing gr 0) (emptyRing gw p) [0]) [0] ta)
      ⟨D ++ [SBEFIFO_EOT_MAGIC], true⟩ =
    (rtDev { sbefifo_xfr_new 0 with
        respPending := true, complete := true }
      (rtCl (linRing gr D) (emptyRing gw p) [0]) [] false,
      ⟨[], true⟩, L) := by
  have hfl := fill_loop_rt gr now tf [] D (by simp) (by simp)
    (by simp; omega)
  rw [if_pos (by simpa using hsm)] at hfl
  refine ⟨TickLog.mk (some 0) 0 true 0 0 true false, ?_⟩
  simp only [sbefifo_poll_timer, rtDev, rtCl, Function.update_same,
    cancel_overlay_rpset, Function.update_idem,
    show ({ sbefifo_xfr_new 0 with respPending := true }).cancel = false
      from rfl,
    show ({ sbefifo_xfr_new 0 with respPending := true }).owner = 0
      from rfl,
    show ({ sbefifo_xfr_new 0 with respPending := true }).writeDone =
      false from rfl,
    show ({ sbefifo_xfr_new 0 with respPending := true }).respPending =
      true from rfl,
    show ({ sbefifo_xfr_new 0 with
      respPending := true }).wait_data_timeout = 0 from rfl,
    Bool.false_eq_true, if_false, linRing]
  rw [drain_loop_empty loopBackend tf gw p _ 0 (by omega)]
  simp only [not_true, Bool.false_eq_true, if_false]
  rw [show linRing gr [] = emptyRing gr 0 from linRing_nil gr] at hfl
  simp only [linRing] at hfl
  simp only [hfl,
    show sbefifo_xfr_done { sbefifo_xfr_new 0 with respPending := true }
      0 = { sbefifo_xfr_new 0 with
        respPending := true, complete := true } from rfl,
    sbefifo_writeback, sbefifo_poll_out, sbefifo_next_xfr,
    Function.update_same, Function.update_idem]
  simp [linRing, List.length_append]

set_option maxHeartbeats 1000000 in
theorem tick_p2_rp_big (gr gw : Nat → Nat) (D : List Nat) (p : Nat)
    (ta : Bool) (tf now : Nat) (hsm : 32 ≤ D.length) (htf : 6 ≤ tf) :
    ∃ L, sbefifo_poll_timer loopBackend tf now
      (rtDev { sbefifo_xfr_new 0 with respPending := true }
        (rtCl (emptyRing gr 0) (emptyRing gw p) [0]) [0] ta)
      ⟨D ++ [SBEFIFO_EOT_MAGIC], true⟩ =
    (rtDev { sbefifo_xfr_new 0 with respPending := true }
      (rtCl (linRing gr (D.take 32)) (emptyRing gw p) [0]) [0] false,
      ⟨D.drop 32 ++ [SBEFIFO_EOT_MAGIC], true⟩, L) := by
  have hfl := fill_loop_rt gr now tf [] D (by simp) (by simp)
    (by simp; omega)
  rw [if_neg (by simp only [List.length_nil, Nat.zero_add]; omega)]
    at hfl
  refine ⟨TickLog.mk (some 0) 0 false 0 0 true false, ?_⟩
  simp only [sbefifo_poll_timer, rtDev, rtCl, Function.update_same,
    cancel_overlay_rpset, Function.update_idem,
    show ({ sbefifo_xfr_new 0 with respPending := true }).cancel = false
      from rfl,
    show ({ sbefifo_xfr_new 0 with respPending := true }).owner = 0
      from rfl,
    show ({ sbefifo_xfr_new 0 with respPending := true }).writeDone =
      false from rfl,
    show ({ sbefifo_xfr_new 0 with respPending := true }).respPending =
      true from rfl,
    show ({ sbefifo_xfr_new 0 with
      respPending := true }).wait_data_timeout = 0 from rfl,
    Bool.false_eq_true, if_false, linRing]
  rw [drain_loop_empty loopBackend tf gw p _ 0 (by omega)]
  simp only [not_true, Bool.false_eq_true, if_false]
  rw [show linRing gr [] = emptyRing gr 0 from linRing_nil gr] at hfl
  simp only [linRing] at hfl
  simp only [hfl,
    show sbefifo_xfr_wdt { sbefifo_xfr_new 0 with respPending := true }
      0 = { sbefifo_xfr_new 0 with respPending := true } from rfl,
    sbefifo_writeback, sbefifo_poll_out,
    Function.update_same, Function.update_idem]
  simp [linRing, List.length_append]

theorem waitEvent_now {σ : Type} (B : FsiBackend σ) (tf now : Nat)
    (cond : SbefifoDev → Bool) (wf : Nat) (d : SbefifoDev) (s : σ)
    (h : cond d = true) (hwf : 1 ≤ wf) :
    waitEvent B tf now cond wf d s = some (d, s) := by
  match wf, hwf with
  | w + 1, _ => simp [waitEvent, h]

theorem waitEvent_tick {σ : Type} (B : FsiBackend σ) (tf now : Nat)
    (cond : SbefifoDev → Bool) (wf : Nat) (d d2 : SbefifoDev) (s s2 : σ)
    (L : TickLog) (hc : cond d = false) (ha : d.timerArmed = true)
    (hp : sbefifo_poll_timer B tf now d s = (d2, s2, L))
    (h2 : cond d2 = true) (hwf : 2 ≤ wf) :
    waitEvent B tf now cond wf d s = some (d2, s2) := by
  match wf, hwf with
  | w + 2, _ =>
    simp only [waitEvent, hc, ha, hp, Bool.false_eq_true, if_false,
      if_true]
    exact waitEvent_now B tf now cond (w + 1) d2 s2 h2 (by omega)

theorem write_ready_rtDev (x : SbefifoXfr) (rb wb : SbefifoBuf)
    (ta : Bool) :
    sbefifo_write_ready (rtDev x (rtCl rb wb [0]) [0] ta) 0 0 =
      (sbefifo_buf_nbwriteable wb != 0) := by
  simp [sbefifo_write_ready, rtDev, rtCl, Function.update_same]

theorem wrotenb_emptyRing (g : Nat → Nat) (c : List Nat) (hc : c ≠ [])
    (h : c.length ≤ 32) :
    (sbefifo_buf_wrotenb
      { emptyRing g 0 with buf := store_words g 0 c }
      (4 * c.length)).1 = linRing g c := by
  have hw := wrotenb_linRing g [] c (by simp) hc (by simp; omega)
  rw [show linRing g [] = emptyRing g 0 from linRing_nil g] at hw
  simp only [store_words, List.length_nil, Nat.zero_mod, shiftl2,
    List.nil_append] at hw
  exact hw

theorem wrotenb_emptyRing2 (g : Nat → Nat) (c : List Nat) (hc : c ≠ [])
    (h : c.length ≤ 32) :
    (sbefifo_buf_wrotenb ⟨store_words g 0 c, false, 0, 0⟩
      (4 * c.length)).1 = linRing g c := by
  have hw := wrotenb_emptyRing g c hc h
  simpa [emptyRing] using hw

theorem write_loop_len0 {σ : Type} (B : FsiBackend σ)
    (tf wf now cid xid f : Nat) (d : SbefifoDev) (s : σ)
    (ubuf : List Nat) (ret : Int) (hf : 1 ≤ f) :
    sbefifo_write_loop B tf wf now cid xid f d s ubuf 0 ret =
      some (d, s, ret) := by
  match f, hf with
  | f + 1, _ => simp [sbefifo_write_loop]

set_option maxHeartbeats 1000000 in
theorem write_loop_fullring_step (rb : SbefifoBuf) (tf wf now : Nat)
    (htf : 6 ≤ tf) (hwf : 2 ≤ wf) (f0 : Nat) (ws0 rest done : List Nat)
    (gw : Nat → Nat) (ret : Int) (hws : ws0.length = 32)
    (hrne : rest ≠ []) (hf1 : 1 ≤ f0) :
    sbefifo_write_loop loopBackend tf wf now 0 0 f0
      (rtDev (sbefifo_xfr_new 0) (rtCl rb (linRing gw ws0) [0]) [0] true)
      ⟨done, false⟩ rest (4 * rest.length) ret =
    sbefifo_write_loop loopBackend tf wf now 0 0 f0
      (rtDev (sbefifo_xfr_new 0)
        (rtCl rb (emptyRing (store_words gw 0 ws0) (ws0.length % 32))
          [0]) [0] false)
      ⟨done ++ ws0, false⟩ rest (4 * rest.length) ret := by
  obtain ⟨f, rfl⟩ : ∃ f, f0 = f + 1 := by
    refine ⟨f0 - 1, ?_⟩
    omega
  have hne : ws0 ≠ [] := by
    intro h0; rw [h0] at hws; simp at hws
  obtain ⟨L, htick⟩ := tick_drain_rt gw ws0 rb done false true tf now hne
    (by omega) htf
  have hlen0 : ¬ (4 * rest.length = 0) := by
    have : rest.length ≠ 0 := by
      intro h0; exact hrne (List.length_eq_zero.mp h0)
    omega
  have hcfalse : sbefifo_write_ready
      (rtDev (sbefifo_xfr_new 0) (rtCl rb (linRing gw ws0) [0]) [0] true)
      0 0 = false := by
    rw [write_ready_rtDev, nbwriteable_linRing gw ws0 (by omega), hws]
    decide
  have hctrue : sbefifo_write_ready
      (rtDev (sbefifo_xfr_new 0)
        (rtCl rb (emptyRing (store_words gw 0 ws0) (ws0.length % 32))
          [0]) [0] false) 0 0 = true := by
    rw [write_ready_rtDev, nbwriteable_emptyRing, hws]
    decide
  simp only [sbefifo_write_loop]
  simp only [eq_false hlen0, if_false]
  rw [waitEvent_tick loopBackend tf now _ wf _ _ _ _ L hcfalse rfl htick
    hctrue hwf]
  rw [waitEvent_now loopBackend tf now _ wf _ _ hctrue (by omega)]

theorem rtDev_rc (x : SbefifoXfr) (cl : SbefifoClient) (q : List Nat)
    (ta : Bool) : (rtDev x cl q ta).rc = 0 := rfl

theorem rtDev_clients0 (x : SbefifoXfr) (cl : SbefifoClient)
    (q : List Nat) (ta : Bool) : (rtDev x cl q ta).clients 0 = cl := by
  simp [rtDev, Function.update_same]

theorem rtDev_xfrs0 (x : SbefifoXfr) (cl : SbefifoClient) (q : List Nat)
    (ta : Bool) : (rtDev x cl q ta).xfrs 0 = x := by
  simp [rtDev, Function.update_same]

set_option maxHeartbeats 1600000 in
theorem write_loop_rt (rb : SbefifoBuf) (tf wf now : Nat)
    (htf : 6 ≤ tf) (hwf : 2 ≤ wf) :
    ∀ (f : Nat) (rest done : List Nat) (gw : Nat → Nat) (ta : Bool)
      (ret : Int),
      rest ≠ [] → rest.length + 1 ≤ f →
      ∃ (g2 : Nat → Nat) (pre last : List Nat),
        rest = pre ++ last ∧ last ≠ [] ∧ last.length ≤ 32 ∧
        sbefifo_write_loop loopBackend tf wf now 0 0 f
          (rtDev (sbefifo_xfr_new 0) (rtCl rb (emptyRing gw 0) [0]) [0]
            ta) ⟨done, false⟩ rest (4 * rest.length) ret =
        some (rtDev { sbefifo_xfr_new 0 with writeDone := true }
          (rtCl rb (linRing g2 last) [0]) [0] true,
          ⟨done ++ pre, false⟩,
          ret + ((4 * rest.length : Nat) : Int)) := by
  intro f
  induction f with
  | zero => intro rest done gw ta ret h1 h2; omega
  | succ f ih =>
    intro rest done gw ta ret hne hf
    have hL : rest.length ≠ 0 := fun h0 => hne (List.length_eq_zero.mp h0)
    have hlen0 := eq_false (show ¬ (4 * rest.length = 0) by omega)
    have hready : sbefifo_write_ready
        (rtDev (sbefifo_xfr_new 0) (rtCl rb (emptyRing gw 0) [0]) [0] ta)
        0 0 = true := by
      rw [write_ready_rtDev, nbwriteable_emptyRing]
      decide
    have hwait := waitEvent_now loopBackend tf now
      (fun d => sbefifo_write_ready d 0 0) wf
      (rtDev (sbefifo_xfr_new 0) (rtCl rb (emptyRing gw 0) [0]) [0] ta)
      (⟨done, false⟩ : LoopSt) hready (by omega)
    simp only [sbefifo_write_loop, hlen0, if_false, hwait]
    simp only [rtDev_rc, rtDev_clients0, rtDev_xfrs0, ne_eq,
      not_true_eq_false, if_false,
      show ¬ ((0 : Int) ≠ 0) from by simp,
      show (rtCl rb (emptyRing gw 0) [0]).wbuf = emptyRing gw 0 from rfl,
      show (rtCl rb (emptyRing gw 0) [0]).rbuf = rb from rfl,
      show (rtCl rb (emptyRing gw 0) [0]).xfrs = [0] from rfl,
      show (rtCl rb (emptyRing gw 0) [0]).nonblock = false from rfl,
      show (emptyRing gw 0).buf = gw from rfl,
      show (emptyRing gw 0).wpos = 0 from rfl,
      show (emptyRing gw 0).rpos = 0 from rfl,
      show (emptyRing gw 0).full = false from rfl,
      nbwriteable_emptyRing]
    have hmin : min ((SBEFIFO_BUF_CNT - 0) <<< 2) (4 * rest.length) =
        4 * min 32 rest.length := by
      simp only [SBEFIFO_BUF_CNT, shiftl2]
      omega
    simp only [hmin, shiftr2]
    have htake_len : (rest.take (min 32 rest.length)).length =
        min 32 rest.length := by
      simp only [List.length_take]
      omega
    have htne : rest.take (min 32 rest.length) ≠ [] := by
      intro h0
      rw [h0] at htake_len
      simp only [List.length_nil] at htake_len
      omega
    have hwrote := wrotenb_emptyRing2 gw (rest.take (min 32 rest.length))
      htne (by rw [htake_len]; omega)
    rw [htake_len] at hwrote
    simp only [hwrote]
    by_cases hsmall : rest.length ≤ 32
    · have hc : min 32 rest.length = rest.length := by omega
      simp only [hc, List.take_length, List.drop_length]
      simp only [Nat.sub_self, if_pos rfl,
        write_loop_len0 loopBackend tf wf now 0 0 f _ _ [] _ (by omega)]
      refine ⟨gw, [], rest, by simp, hne, by omega, ?_⟩
      simp [rtDev, rtCl, Function.update_same, Function.update_idem,
        sbefifo_xfr_new]
    · have hc : min 32 rest.length = 32 := by omega
      simp only [hc]
      have hlz := eq_false
        (show ¬ (4 * rest.length - 4 * 32 = 0) by omega)
      simp only [hlz, if_false]
      have hlen2 : 4 * rest.length - 4 * 32 =
          4 * (rest.drop 32).length := by
        simp only [List.length_drop]
        omega
      rw [hlen2]
      have hdne : rest.drop 32 ≠ [] := by
        intro h0
        have h1 := congrArg List.length h0
        simp only [List.length_drop, List.length_nil] at h1
        omega
      have htk32 : (rest.take 32).length = 32 := by
        simp only [List.length_take]
        omega
      have hstep := write_loop_fullring_step rb tf wf now htf hwf f
        (rest.take 32) (rest.drop 32) done gw
        (ret + ((4 * 32 : Nat) : Int)) htk32 hdne (by omega)
      have hp0 : (rest.take 32).length % 32 = 0 := by
        rw [htk32]
      rw [hp0] at hstep
      obtain ⟨g2, pre2, last, hsp, hlne, hl32, hcall⟩ := ih
        (rest.drop 32) (done ++ rest.take 32)
        (store_words gw 0 (rest.take 32)) false
        (ret + ((4 * 32 : Nat) : Int)) hdne
        (by simp only [List.length_drop]; omega)
      refine ⟨g2, rest.take 32 ++ pre2, last, ?_, hlne, hl32, ?_⟩
      · rw [List.append_assoc, ← hsp]
        exact (List.take_append_drop 32 rest).symm
      · have hint : ret + ((4 * rest.length : Nat) : Int) =
            ret + ((4 * 32 : Nat) : Int) +
              ((4 * (rest.drop 32).length : Nat) : Int) := by
          simp only [List.length_drop]
          push_cast
          omega
        have hresp : done ++ (rest.take 32 ++ pre2) =
            (done ++ rest.take 32) ++ pre2 := by
          rw [List.append_assoc]
        rw [hint, hresp, ← hcall, ← hstep]
        simp [rtDev, rtCl, Function.update_idem]

theorem read_ready_rtDev0 (x : SbefifoXfr) (rb wb : SbefifoBuf)
    (q : List Nat) (ta : Bool) :
    sbefifo_read_ready (rtDev x (rtCl rb wb [0]) q ta) 0 =
      (sbefifo_buf_nbreadable rb != 0 || x.complete) := by
  simp [sbefifo_read_ready, rtDev, rtCl, Function.update_same]

theorem read_all_zero {σ : Type} (B : FsiBackend σ)
    (tf wf now cid f : Nat) (d : SbefifoDev) (s : σ) :
    sbefifo_read_all B tf wf now cid f d s 0 = some (d, s, []) := by
  cases f <;> simp [sbefifo_read_all]

set_option maxHeartbeats 1600000 in
theorem read_common_tick_rt (x : SbefifoXfr) (gr : Nat → Nat)
    (C : List Nat) (W : SbefifoBuf) (q : List Nat) (st0 : SbefifoDev)
    (s0 s1 : LoopSt) (L : TickLog) (tf wf now rem : Nat)
    (hwf : 2 ≤ wf)
    (htick : sbefifo_poll_timer loopBackend tf now st0 s0 =
      (rtDev x (rtCl (linRing gr C) W [0]) q false, s1, L))
    (hnr : sbefifo_read_ready st0 0 = false)
    (harm : st0.timerArmed = true)
    (hnb0 : (st0.clients 0).nonblock = false)
    (hC : C ≠ []) (hC32 : C.length ≤ 32)
    (hal : (rem >>> 2) <<< 2 = rem) (hrem : 4 * C.length ≤ rem) :
    sbefifo_read_common loopBackend tf wf now st0 s0 0 rem =
      some (rtDev x
        (rtCl (emptyRing (store_words gr 0 C) (C.length % 32)) W
          (if x.complete then [] else [0]))
        q (if x.complete then false else true), s1,
        ((4 * C.length : Nat) : Int), C) := by
  have hready : sbefifo_read_ready
      (rtDev x (rtCl (linRing gr C) W [0]) q false) 0 = true := by
    rw [read_ready_rtDev0, nbreadable_linRing gr C hC32]
    have : C.length ≠ 0 := fun h0 => hC (List.length_eq_zero.mp h0)
    simp only [shiftl2, Bool.or_eq_true, bne_iff_ne, ne_eq]
    left
    omega
  have hwait := waitEvent_tick loopBackend tf now
    (fun d => sbefifo_read_ready d 0) wf st0
    (rtDev x (rtCl (linRing gr C) W [0]) q false) s0 s1 L hnr harm
    htick hready hwf
  have hCL : C.length ≠ 0 := fun h0 => hC (List.length_eq_zero.mp h0)
  have hminr : min (C.length <<< 2) rem = 4 * C.length := by
    simp only [shiftl2]
    omega
  have hread := readnb_linRing gr C hC hC32
  rw [shiftl2] at hread
  simp only [sbefifo_read_common, hal, ne_eq, not_true_eq_false,
    if_true, hnb0, Bool.false_eq_true, false_and, if_false, hwait]
  simp only [rtDev_rc, rtDev_clients0, rtDev_xfrs0, ne_eq,
    show ¬ ((0 : Int) ≠ 0) from by simp, if_false,
    show (rtCl (linRing gr C) W [0]).rbuf = linRing gr C from rfl,
    show (rtCl (linRing gr C) W [0]).wbuf = W from rfl,
    show (rtCl (linRing gr C) W [0]).xfrs = [0] from rfl,
    show (rtCl (linRing gr C) W [0]).nonblock = false from rfl,
    nbreadable_linRing gr C hC32, hminr, shiftr2,
    show (linRing gr C).buf = store_words gr 0 C from rfl,
    show (linRing gr C).rpos = 0 from rfl,
    read_words_store, hread]
  by_cases hcpl : x.complete = true
  · simp [hcpl, rtDev, rtCl, Function.update_same, Function.update_idem]
  · have hcpl2 := eq_false hcpl
    simp [hcpl2, hcpl, rtDev, rtCl, Function.update_same,
      Function.update_idem]

set_option maxHeartbeats 1600000 in
theorem read_all_rt (tf wf now : Nat) (htf : 6 ≤ tf) (hwf : 2 ≤ wf) :
    ∀ (fuel : Nat) (D : List Nat) (st : SbefifoDev) (s : LoopSt),
      D ≠ [] → D.length + 1 ≤ fuel →
      ((∃ gr gw ws resp0, ws ≠ [] ∧ ws.length ≤ 32 ∧ resp0 ++ ws = D ∧
          st = rtDev { sbefifo_xfr_new 0 with writeDone := true }
            (rtCl (emptyRing gr 0) (linRing gw ws) [0]) [0] true ∧
          s = ⟨resp0, false⟩) ∨
        (∃ gr gw p,
          st = rtDev { sbefifo_xfr_new 0 with respPending := true }
            (rtCl (emptyRing gr 0) (emptyRing gw p) [0]) [0] true ∧
          s = ⟨D ++ [SBEFIFO_EOT_MAGIC], true⟩)) →
      ∃ d2 s2, sbefifo_read_all loopBackend tf wf now 0 fuel st s
        (4 * D.length) = some (d2, s2, D) := by
  intro fuel
  induction fuel with
  | zero => intro D st s hne hf _; omega
  | succ f ih =>
    intro D st s hne hf hentry
    have hDL : D.length ≠ 0 := fun h0 => hne (List.length_eq_zero.mp h0)
    have hr0 := eq_false (show ¬ (4 * D.length = 0) by omega)
    have hal : ((4 * D.length) >>> 2) <<< 2 = 4 * D.length := by
      simp only [shiftr2, shiftl2]
    have hretpos : ¬ (((4 * D.length : Nat) : Int) ≤ 0) := by omega
    have htk : D.length ≤ 31 ∨ (D.take 32).length = 32 := by
      rcases le_or_lt D.length 31 with h | h
      · exact Or.inl h
      · right
        simp only [List.length_take]
        omega
    rcases hentry with ⟨gr, gw, ws, resp0, hws, hws32, hD, hst, hs⟩ |
      ⟨gr, gw, p, hst, hs⟩
    · subst hst
      subst hs
      have hnr : sbefifo_read_ready
          (rtDev { sbefifo_xfr_new 0 with writeDone := true }
            (rtCl (emptyRing gr 0) (linRing gw ws) [0]) [0] true) 0 =
          false := by
        rw [read_ready_rtDev0, nbreadable_emptyRing]
        decide
      by_cases hsm : D.length ≤ 31
      · obtain ⟨L, htick⟩ := tick_p2_wd_small gr gw ws resp0 true tf now
          hws hws32 (by rw [hD]; omega) htf
        rw [hD] at htick
        have hrc := read_common_tick_rt _ gr D _ [] _ _ _ L tf wf now
          (4 * D.length) hwf htick hnr rfl rfl hne (by omega) hal
          (le_refl _)
        simp only [eq_self_iff_true, if_true] at hrc
        simp only [sbefifo_read_all, hr0, if_false, hrc,
          if_neg hretpos, Int.toNat_natCast, Nat.sub_self,
          read_all_zero, List.append_nil]
        exact ⟨_, _, rfl⟩
      · obtain ⟨L, htick⟩ := tick_p2_wd_big gr gw ws resp0 true tf now
          hws hws32 (by rw [hD]; omega) htf
        rw [hD] at htick
        have hlen32 : (D.take 32).length = 32 := by
          rcases htk with h | h
          · omega
          · exact h
        have htkne : D.take 32 ≠ [] := by
          intro h0
          rw [h0] at hlen32
          simp at hlen32
        have hrc := read_common_tick_rt _ gr (D.take 32) _ [0] _ _ _ L
          tf wf now (4 * D.length) hwf htick hnr rfl rfl htkne
          (by omega) hal (by rw [hlen32]; omega)
        simp only [show (sbefifo_xfr_new 0).complete = false from rfl,
          if_false, Bool.false_eq_true] at hrc
        have hmod : (D.take 32).length % 32 = 0 := by
          rw [hlen32]
        rw [hmod] at hrc
        have hretpos2 : ¬ (((4 * (D.take 32).length : Nat) : Int) ≤ 0)
            := by
          rw [hlen32]
          omega
        have hrem2 : 4 * D.length -
            ((4 * (D.take 32).length : Nat) : Int).toNat =
            4 * (D.drop 32).length := by
          simp only [Int.toNat_natCast, hlen32, List.length_drop]
          omega
        simp only [show (sbefifo_xfr_new 0).complete = false from rfl,
          sbefifo_read_all, hr0, if_false, hrc, if_neg hretpos2, hrem2]
        by_cases hD32 : (D.drop 32).length = 0
        · have hta : D.take 32 = D := by
            have : D.length ≤ 32 := by
              simp only [List.length_drop] at hD32
              omega
            exact List.take_of_length_le this
          simp only [hD32, Nat.mul_zero, read_all_zero]
          have hfix : List.take 32 D ++ ([] : List Nat) = D := by
            rw [List.append_nil, hta]
          rw [hfix]
          exact ⟨_, _, rfl⟩
        · obtain ⟨d2, s2, hcall⟩ := ih (D.drop 32)
            (rtDev { sbefifo_xfr_new 0 with respPending := true }
              (rtCl (emptyRing (store_words gr 0 (D.take 32)) 0)
                (emptyRing (store_words gw 0 ws) (ws.length % 32)) [0])
              [0] true)
            ⟨D.drop 32 ++ [SBEFIFO_EOT_MAGIC], true⟩
            (fun h0 => hD32 (by rw [h0]; rfl))
            (by simp only [List.length_drop]; omega)
            (Or.inr ⟨store_words gr 0 (D.take 32),
              store_words gw 0 ws, ws.length % 32, rfl, rfl⟩)
          simp only [sbefifo_xfr_new] at hcall ⊢
          simp only [hcall]
          refine ⟨d2, s2, ?_⟩
          rw [List.take_append_drop]
    · subst hst
      subst hs
      have hnr : sbefifo_read_ready
          (rtDev { sbefifo_xfr_new 0 with respPending := true }
            (rtCl (emptyRing gr 0) (emptyRing gw p) [0]) [0] true) 0 =
          false := by
        rw [read_ready_rtDev0, nbreadable_emptyRing]
        decide
      by_cases hsm : D.length ≤ 31
      · obtain ⟨L, htick⟩ := tick_p2_rp_small gr gw D p true tf now hsm
          htf
        have hrc := read_common_tick_rt _ gr D _ [] _ _ _ L tf wf now
          (4 * D.length) hwf htick hnr rfl rfl hne (by omega) hal
          (le_refl _)
        simp only [eq_self_iff_true, if_true] at hrc
        simp only [sbefifo_read_all, hr0, if_false, hrc,
          if_neg hretpos, Int.toNat_natCast, Nat.sub_self,
          read_all_zero, List.append_nil]
        exact ⟨_, _, rfl⟩
      · obtain ⟨L, htick⟩ := tick_p2_rp_big gr gw D p true tf now
          (by omega) htf
        have hlen32 : (D.take 32).length = 32 := by
          rcases htk with h | h
          · omega
          · exact h
        have htkne : D.take 32 ≠ [] := by
          intro h0
          rw [h0] at hlen32
          simp at hlen32
        have hrc := read_common_tick_rt _ gr (D.take 32) _ [0] _ _ _ L
          tf wf now (4 * D.length) hwf htick hnr rfl rfl htkne
          (by omega) hal (by rw [hlen32]; omega)
        simp only [show (sbefifo_xfr_new 0).complete = false from rfl,
          if_false, Bool.false_eq_true] at hrc
        have hmod : (D.take 32).length % 32 = 0 := by
          rw [hlen32]
        rw [hmod] at hrc
        have hretpos2 : ¬ (((4 * (D.take 32).length : Nat) : Int) ≤ 0)
            := by
          rw [hlen32]
          omega
        have hrem2 : 4 * D.length -
            ((4 * (D.take 32).length : Nat) : Int).toNat =
            4 * (D.drop 32).length := by
          simp only [Int.toNat_natCast, hlen32, List.length_drop]
          omega
        simp only [show (sbefifo_xfr_new 0).complete = false from rfl,
          sbefifo_read_all, hr0, if_false, hrc, if_neg hretpos2, hrem2]
        by_cases hD32 : (D.drop 32).length = 0
        · have hta : D.take 32 = D := by
            have : D.length ≤ 32 := by
              simp only [List.length_drop] at hD32
              omega
            exact List.take_of_length_le this
          simp only [hD32, Nat.mul_zero, read_all_zero]
          have hfix : List.take 32 D ++ ([] : List Nat) = D := by
            rw [List.append_nil, hta]
          rw [hfix]
          exact ⟨_, _, rfl⟩
        · obtain ⟨d2, s2, hcall⟩ := ih (D.drop 32)
            (rtDev { sbefifo_xfr_new 0 with respPending := true }
              (rtCl (emptyRing (store_words gr 0 (D.take 32)) 0)
                (emptyRing gw p) [0]) [0] true)
            ⟨D.drop 32 ++ [SBEFIFO_EOT_MAGIC], true⟩
            (fun h0 => hD32 (by rw [h0]; rfl))
            (by simp only [List.length_drop]; omega)
            (Or.inr ⟨store_words gr 0 (D.take 32), gw, p, rfl, rfl⟩)
          simp only [sbefifo_xfr_new] at hcall ⊢
          simp only [hcall]
          refine ⟨d2, s2, ?_⟩
          rw [List.take_append_drop]

set_option maxHeartbeats 1600000 in
theorem write_common_rt (data : List Nat) (hne : data ≠ [])
    (tf wf now : Nat) (htf : 6 ≤ tf) (hwf : 2 ≤ wf) :
    ∃ (g2 : Nat → Nat) (pre last : List Nat),
      data = pre ++ last ∧ last ≠ [] ∧ last.length ≤ 32 ∧
      sbefifo_write_common loopBackend tf wf now
        (sbefifo_open devEmpty 0 false).1 ⟨[], false⟩ 0 data
        (4 * data.length) =
      some (rtDev { sbefifo_xfr_new 0 with writeDone := true }
        (rtCl sbefifo_buf_init (linRing g2 last) [0]) [0] true,
        ⟨pre, false⟩, ((4 * data.length : Nat) : Int)) := by
  have hDL : data.length ≠ 0 :=
    fun h0 => hne (List.length_eq_zero.mp h0)
  obtain ⟨g2, pre, last, hsp, hlne, hl32, hloop⟩ :=
    write_loop_rt sbefifo_buf_init tf wf now htf hwf
    (4 * data.length + 1) data [] (fun _ => 0) false 0 hne (by omega)
  refine ⟨g2, pre, last, hsp, hlne, hl32, ?_⟩
  have hal : ((4 * data.length) >>> 2) <<< 2 = 4 * data.length := by
    simp only [shiftr2, shiftl2]
  have hl0 := eq_false (show ¬ (4 * data.length = 0) by omega)
  simp only [sbefifo_write_common, hal, ne_eq, not_true_eq_false,
    if_false, eq_self_iff_true, hl0, sbefifo_open, devEmpty,
    sbefifo_next_xfr, sbefifo_enq_xfr, sbefifo_client_new,
    Function.update_same, Function.update_idem]
  simp only [show ¬ ((0 : Int) ≠ 0) from by simp, if_false,
    Bool.false_eq_true, false_and]
  rw [show (0 : Int) + ((4 * data.length : Nat) : Int) =
    ((4 * data.length : Nat) : Int) by omega] at hloop
  simp only [List.nil_append] at hloop
  rw [← hloop]
  simp [rtDev, rtCl, devEmpty, sbefifo_client_new, sbefifo_buf_init,
    emptyRing, Function.update_idem, sbefifo_write_loop]

end Sbefifo
